import Mathlib

/-!
# Matcher compilation (`pkg/matchers/compile.go`)

A shallow embedding of `Matcher.CompileMatchers` and of the DSL function
table `helperFunctions`.

* Go strings are modelled by Lean strings (well-formed UTF-8 text); the
  bytes of a string are its UTF-8 encoding.
* `CompileMatchers` mutates its receiver and returns an `error`; here it is
  a function from the matcher before the call to the matcher after the call
  together with the returned error (`none` for `nil`).
* The registries `MatcherTypes`, `ConditionTypes`, `PartTypes`, the constants
  `ORCondition`, `BodyPart`, and the library calls `regexp.Compile`,
  `(*Regexp).MatchString`, `govaluate.NewEvaluableExpressionWithFunctions`,
  `strings.ToUpper`, `strings.ToLower`, `strings.TrimSpace`, `md5.Sum` and
  `sha256.Sum256` are declared outside `compile.go`; they are parameters of
  the development (`Env`).
-/

namespace Matchers

/-! ## Values of the expression language -/

/-- Dynamic values (`interface{}`) that flow through the function table. -/
inductive Value where
  /-- a Go `string` -/
  | str (s : String)
  /-- a Go `float64` holding the integer `n` exactly -/
  | num (n : Nat)
  /-- a Go `bool` -/
  | bool (b : Bool)
  /-- a Go byte array such as `[32]byte` -/
  | bytes (b : List Nat)
  deriving DecidableEq, Repr

/-- Ways in which a call of an expression function does not produce a value. -/
inductive Failure where
  /-- run-time panic: `args[i]` with `i` out of range -/
  | indexOutOfRange (i : Nat) (len : Nat)
  /-- run-time panic: the type assertion `.(string)` on a non-string -/
  | notAString (v : Value)
  /-- the function returned `nil, err` -/
  | error (msg : String)
  deriving DecidableEq, Repr

/-- The Go type `govaluate.ExpressionFunction`. -/
abbrev ExpressionFunction := List Value → Except Failure Value

/-- The expression `args[i].(string)`. -/
def argString (args : List Value) (i : Nat) : Except Failure String :=
  match args.get? i with
  | none => .error (.indexOutOfRange i args.length)
  | some (.str s) => .ok s
  | some v => .error (.notAString v)

/-! ## Go library functions with a fixed meaning

`strings.*`, `encoding/base64` and `encoding/hex`, stated on the characters
(for `strings`) and on the bytes (for the encodings) of a string. -/

/-- The conversion `[]byte(s)`: the UTF-8 encoding of `s`, each byte as a
number below 256. -/
def stringBytes (s : String) : List Nat :=
  s.toList.flatMap fun c => (String.utf8EncodeChar c).map UInt8.toNat

/-- The builtin `len(s)` on a string: its number of bytes. -/
def goLen (s : String) : Nat := (stringBytes s).length

/-- The alphabet of `base64.StdEncoding`. -/
def encodeStd : List Char :=
  "ABCDEFGHIJKLMNOPQRSTUVWXYZabcdefghijklmnopqrstuvwxyz0123456789+/".toList

/-- The lookup `enc.encode[n]` for a 6-bit `n`. -/
def encodeChar (n : Nat) : Char := encodeStd.getD n '='

/-- The body of `(*Encoding).Encode` for the standard, padded encoding: three
bytes become four characters; a final group of one or two bytes is padded
with `=`. -/
def encodeBytes : List Nat → List Char
  | a :: b :: c :: rest =>
    let val := a * 65536 + b * 256 + c
    encodeChar (val / 262144 % 64) :: encodeChar (val / 4096 % 64) ::
      encodeChar (val / 64 % 64) :: encodeChar (val % 64) :: encodeBytes rest
  | [a, b] =>
    let val := a * 65536 + b * 256
    [encodeChar (val / 262144 % 64), encodeChar (val / 4096 % 64),
      encodeChar (val / 64 % 64), '=']
  | [a] =>
    let val := a * 65536
    [encodeChar (val / 262144 % 64), encodeChar (val / 4096 % 64), '=', '=']
  | [] => []

/-- The call `base64.StdEncoding.EncodeToString(src)`. -/
def EncodeToString (src : List Nat) : String := String.mk (encodeBytes src)

/-- The table `hextable` of `encoding/hex`. -/
def hextable : List Char := "0123456789abcdef".toList

/-- The call `hex.EncodeToString(src)`: two lowercase digits per byte. -/
def hexEncodeToString (src : List Nat) : String :=
  String.mk (src.flatMap fun b => [hextable.getD (b / 16) '0', hextable.getD (b % 16) '0'])

/-- The call `strings.TrimLeft(s, cutset)` on characters. -/
def trimLeftChars (s cutset : List Char) : List Char :=
  s.dropWhile fun c => decide (c ∈ cutset)

/-- The call `strings.TrimRight(s, cutset)` on characters. -/
def trimRightChars (s cutset : List Char) : List Char :=
  (s.reverse.dropWhile fun c => decide (c ∈ cutset)).reverse

/-- The call `strings.Trim(s, cutset)`: leading and trailing characters of
`cutset` removed. -/
def stringsTrim (s cutset : String) : String :=
  String.mk (trimLeftChars (trimRightChars s.toList cutset.toList) cutset.toList)

/-- The call `strings.TrimLeft(s, cutset)`. -/
def stringsTrimLeft (s cutset : String) : String :=
  String.mk (trimLeftChars s.toList cutset.toList)

/-- The call `strings.TrimRight(s, cutset)`. -/
def stringsTrimRight (s cutset : String) : String :=
  String.mk (trimRightChars s.toList cutset.toList)

/-- The call `strings.HasPrefix(s, p)` on characters. -/
def hasPrefixChars (s p : List Char) : Bool := p.isPrefixOf s

/-- The call `strings.HasSuffix(s, p)` on characters. -/
def hasSuffixChars (s p : List Char) : Bool := p.reverse.isPrefixOf s.reverse

/-- The call `strings.TrimPrefix(s, p)`: `s[len(p):]` when `s` starts with
`p`, else `s`. -/
def stringsTrimPrefix (s p : String) : String :=
  if hasPrefixChars s.toList p.toList then String.mk (s.toList.drop p.toList.length) else s

/-- The call `strings.TrimSuffix(s, p)`: `s[:len(s)-len(p)]` when `s` ends
with `p`, else `s`. -/
def stringsTrimSuffix (s p : String) : String :=
  if hasSuffixChars s.toList p.toList then
    String.mk (s.toList.take (s.toList.length - p.toList.length))
  else s

/-- The call `strings.Contains(s, sub)` on characters: `sub` starts at some
position of `s`. -/
def containsChars : List Char → List Char → Bool
  | [], sub => sub.isEmpty
  | c :: cs, sub => hasPrefixChars (c :: cs) sub || containsChars cs sub

/-- The call `strings.Contains(s, sub)`. -/
def stringsContains (s sub : String) : Bool := containsChars s.toList sub.toList

/-- The loop of `strings.Replace(s, old, new, -1)` for a non-empty `old`,
scanning from the left; `fuel` bounds the number of steps. -/
def replaceLoop (old new : List Char) : Nat → List Char → List Char
  | 0, s => s
  | _, [] => []
  | fuel + 1, c :: cs =>
    if hasPrefixChars (c :: cs) old then
      new ++ replaceLoop old new fuel ((c :: cs).drop old.length)
    else c :: replaceLoop old new fuel cs

/-- The call `strings.Replace(s, old, new, -1)` on characters. With an empty
`old`, `new` is inserted before every character and at the end. -/
def replaceChars (s old new : List Char) : List Char :=
  if old = new then s
  else if old = [] then new ++ s.flatMap fun c => c :: new
  else replaceLoop old new s.length s

/-- The call `strings.Replace(s, old, new, -1)`. -/
def stringsReplace (s old new : String) : String :=
  String.mk (replaceChars s.toList old.toList new.toList)

/-! ## Environment: declarations that live outside `compile.go` -/

/-- The registries, constants and library functions used by `compile.go`.
`Re` is `*regexp.Regexp`, `Ex` is `*govaluate.EvaluableExpression`. -/
structure Env (Re Ex : Type) where
  /-- the map `MatcherTypes` -/
  MatcherTypes : String → Option Nat
  /-- the map `ConditionTypes` -/
  ConditionTypes : String → Option Nat
  /-- the map `PartTypes` -/
  PartTypes : String → Option Nat
  /-- the constant `ORCondition` -/
  ORCondition : Nat
  /-- the constant `BodyPart` -/
  BodyPart : Nat
  /-- the library call `regexp.Compile` -/
  regexpCompile : String → Except String Re
  /-- the library call `(*Regexp).MatchString` -/
  MatchString : Re → String → Bool
  /-- the library call `govaluate.NewEvaluableExpressionWithFunctions` -/
  NewEvaluableExpressionWithFunctions :
    String → (String → Option ExpressionFunction) → Except String Ex
  /-- the library call `strings.ToUpper` -/
  ToUpper : String → String
  /-- the library call `strings.ToLower` -/
  ToLower : String → String
  /-- the library call `strings.TrimSpace` -/
  TrimSpace : String → String
  /-- the library call `md5.Sum`, as a list of 16 bytes -/
  md5Sum : List Nat → List Nat
  /-- the library call `sha256.Sum256`, as a list of 32 bytes -/
  sha256Sum : List Nat → List Nat

/-- The struct `Matcher`: the authored fields and the fields that
`CompileMatchers` fills in. -/
structure Matcher (Re Ex : Type) where
  /-- field `Type` -/
  Type_ : String
  /-- field `Regex` -/
  Regex : List String
  /-- field `DSL` -/
  DSL : List String
  /-- field `Condition` -/
  Condition : String
  /-- field `Part` -/
  Part : String
  /-- field `matcherType` -/
  matcherType : Nat
  /-- field `regexCompiled` -/
  regexCompiled : List Re
  /-- field `dslCompiled` -/
  dslCompiled : List Ex
  /-- field `condition` -/
  condition : Nat
  /-- field `part` -/
  part : Nat

/-! ## The function table -/

section Table
variable {Re Ex : Type}

/-- The function `helperFunctions`: the map from a function name to its
implementation, in the order of the source. -/
def helperFunctions (env : Env Re Ex) : String → Option ExpressionFunction
  | "len" => some fun args => do
      let s ← argString args 0
      pure (.num (goLen s))
  | "toupper" => some fun args => do
      let s ← argString args 0
      pure (.str (env.ToUpper s))
  | "tolower" => some fun args => do
      let s ← argString args 0
      pure (.str (env.ToLower s))
  | "replace" => some fun args => do
      let s ← argString args 0
      let old ← argString args 1
      let new ← argString args 2
      pure (.str (stringsReplace s old new))
  | "trim" => some fun args => do
      let s ← argString args 0
      let cutset ← argString args 2
      pure (.str (stringsTrim s cutset))
  | "trimleft" => some fun args => do
      let s ← argString args 0
      let cutset ← argString args 1
      pure (.str (stringsTrimLeft s cutset))
  | "trimright" => some fun args => do
      let s ← argString args 0
      let cutset ← argString args 1
      pure (.str (stringsTrimRight s cutset))
  | "trimspace" => some fun args => do
      let s ← argString args 0
      pure (.str (env.TrimSpace s))
  | "trimprefix" => some fun args => do
      let s ← argString args 0
      let p ← argString args 1
      pure (.str (stringsTrimPrefix s p))
  | "trimsuffix" => some fun args => do
      let s ← argString args 0
      let p ← argString args 1
      pure (.str (stringsTrimSuffix s p))
  | "base64" => some fun args => do
      let s ← argString args 0
      let sEnc := EncodeToString (stringBytes s)
      pure (.str sEnc)
  | "base64_decode" => some fun args => do
      let s ← argString args 0
      let sEnc := EncodeToString (stringBytes s)
      pure (.str sEnc)
  | "md5" => some fun args => do
      let s ← argString args 0
      let hash := env.md5Sum (stringBytes s)
      pure (.str (hexEncodeToString hash))
  | "sha256" => some fun args => do
      let s ← argString args 0
      pure (.bytes (env.sha256Sum (stringBytes s)))
  | "contains" => some fun args => do
      let s ← argString args 0
      let sub ← argString args 1
      pure (.bool (stringsContains s sub))
  | "regex" => some fun args => do
      let p ← argString args 0
      match env.regexpCompile p with
      | .error err => .error (.error err)
      | .ok compiled =>
        let s ← argString args 1
        pure (.bool (env.MatchString compiled s))
  | _ => none

/-- A call `name(args...)` of a function of the table. -/
def callHelper (env : Env Re Ex) (name : String) (args : List Value) :
    Option (Except Failure Value) :=
  (helperFunctions env name).map fun f => f args

/-! ## `CompileMatchers` -/

/-- The loop "Compile the regexes": appends to `acc` (the field
`regexCompiled`) until a pattern fails; returns the collection reached and
the error, if any. -/
def compileRegexes (env : Env Re Ex) : List String → List Re → List Re × Option String
  | [], acc => (acc, none)
  | regex :: rest, acc =>
    match env.regexpCompile regex with
    | .error _ => (acc, some ("could not compile regex: " ++ regex))
    | .ok compiled => compileRegexes env rest (acc ++ [compiled])

/-- The loop "Compile the dsl expressions": appends to `acc` (the field
`dslCompiled`) until an expression fails. -/
def compileDSLs (env : Env Re Ex) : List String → List Ex → List Ex × Option String
  | [], acc => (acc, none)
  | dsl :: rest, acc =>
    match env.NewEvaluableExpressionWithFunctions dsl (helperFunctions env) with
    | .error _ => (acc, some ("could not compile dsl: " ++ dsl))
    | .ok compiled => compileDSLs env rest (acc ++ [compiled])

/-- The method `(*Matcher).CompileMatchers`: the matcher after the call and
the returned error (`none` is `nil`). A failed map lookup stores the zero
value `0` in the assigned field. -/
def CompileMatchers (env : Env Re Ex) (m : Matcher Re Ex) : Matcher Re Ex × Option String :=
  match env.MatcherTypes m.Type_ with
  | none =>
    ({ m with matcherType := 0 }, some ("unknown matcher type specified: " ++ m.Type_))
  | some t =>
    let m1 := { m with matcherType := t }
    match compileRegexes env m1.Regex m1.regexCompiled with
    | (rc, some err) => ({ m1 with regexCompiled := rc }, some err)
    | (rc, none) =>
      let m2 := { m1 with regexCompiled := rc }
      match compileDSLs env m2.DSL m2.dslCompiled with
      | (dc, some err) => ({ m2 with dslCompiled := dc }, some err)
      | (dc, none) =>
        let m3 := { m2 with dslCompiled := dc }
        if m3.Condition ≠ "" then
          match env.ConditionTypes m3.Condition with
          | none =>
            ({ m3 with condition := 0 }, some ("unknown condition specified: " ++ m3.Condition))
          | some c =>
            let m4 := { m3 with condition := c }
            if m4.Part ≠ "" then
              match env.PartTypes m4.Part with
              | none =>
                ({ m4 with part := 0 }, some ("unknown matcher part specified: " ++ m4.Part))
              | some p => ({ m4 with part := p }, none)
            else ({ m4 with part := env.BodyPart }, none)
        else
          let m4 := { m3 with condition := env.ORCondition }
          if m4.Part ≠ "" then
            match env.PartTypes m4.Part with
            | none =>
              ({ m4 with part := 0 }, some ("unknown matcher part specified: " ++ m4.Part))
            | some p => ({ m4 with part := p }, none)
          else ({ m4 with part := env.BodyPart }, none)

end Table

/-! ## A concrete environment

Small stand-ins for the registries and the library, used to run the model on
concrete matchers. -/

/-- A concrete environment: three registries with the keys of a scanner
template, a pattern compiler that rejects exactly the patterns whose
parentheses are not balanced in number, and an expression compiler that
rejects exactly the empty expression. -/
def sampleEnv : Env String String where
  MatcherTypes := fun k =>
    [("word", 1), ("regex", 2), ("binary", 3), ("status", 4), ("size", 5), ("dsl", 6)].lookup k
  ConditionTypes := fun k => [("and", 1), ("or", 2)].lookup k
  PartTypes := fun k => [("body", 1), ("header", 2), ("all", 3)].lookup k
  ORCondition := 2
  BodyPart := 1
  regexpCompile := fun p =>
    if p.toList.count '(' = p.toList.count ')' then .ok p
    else .error "error parsing regexp: missing closing )"
  MatchString := fun re s => stringsContains s re
  NewEvaluableExpressionWithFunctions := fun dsl _ =>
    if dsl = "" then .error "Unexpected end of expression" else .ok dsl
  ToUpper := String.toUpper
  ToLower := String.toLower
  TrimSpace := String.trim
  md5Sum := fun _ => List.replicate 16 0
  sha256Sum := fun _ => List.replicate 32 0

/-- A matcher as authored: nothing compiled yet, resolved fields at their
zero value. -/
def newMatcher (ty : String) (regex dsl : List String) (cond part : String) :
    Matcher String String where
  Type_ := ty
  Regex := regex
  DSL := dsl
  Condition := cond
  Part := part
  matcherType := 0
  regexCompiled := []
  dslCompiled := []
  condition := 0
  part := 0

/-! ## Reference notions the results are stated against -/

/-- The value of a hexadecimal digit: its position in `hextable`. -/
def hexDigitValue (c : Char) : Nat := hextable.indexOf c

/-- The argument positions that each function of the table converts with
`.(string)`, as written in the source. -/
def stringPositions : String → List Nat
  | "len" => [0]
  | "toupper" => [0]
  | "tolower" => [0]
  | "replace" => [0, 1, 2]
  | "trim" => [0, 2]
  | "trimleft" => [0, 1]
  | "trimright" => [0, 1]
  | "trimspace" => [0]
  | "trimprefix" => [0, 1]
  | "trimsuffix" => [0, 1]
  | "base64" => [0]
  | "base64_decode" => [0]
  | "md5" => [0]
  | "sha256" => [0]
  | "contains" => [0, 1]
  | "regex" => [0, 1]
  | _ => []

/-- Whether a value is a Go `string`. -/
def Value.isStr : Value → Bool
  | .str _ => true
  | _ => false

/-- The pieces of `s` between the non-overlapping occurrences of a non-empty
`old`, found scanning from the left; `cur` is the piece being read and `fuel`
bounds the number of steps. -/
def splitLoop (old : List Char) : Nat → List Char → List Char → List (List Char)
  | 0, s, cur => [cur ++ s]
  | _, [], cur => [cur]
  | fuel + 1, c :: cs, cur =>
    if hasPrefixChars (c :: cs) old then
      cur :: splitLoop old fuel ((c :: cs).drop old.length) []
    else splitLoop old fuel cs (cur ++ [c])

/-- Splitting `s` at every non-overlapping occurrence of `old`, left to
right. -/
def splitChars (s old : List Char) : List (List Char) := splitLoop old s.length s []

/-- Joining pieces with a separator between consecutive pieces. -/
def joinChars (sep : List Char) : List (List Char) → List Char
  | [] => []
  | [p] => p
  | p :: q :: rest => p ++ sep ++ joinChars sep (q :: rest)

/-- The value of a character of the standard base64 alphabet: its position in
`encodeStd`; no value for any other character. -/
def decodeChar (c : Char) : Option Nat :=
  if c ∈ encodeStd then some (encodeStd.indexOf c) else none

/-- Three bytes from four 6-bit values. -/
def decodeQuad (c1 c2 c3 c4 : Char) : Option (List Nat) := do
  let a ← decodeChar c1
  let b ← decodeChar c2
  let c ← decodeChar c3
  let d ← decodeChar c4
  let val := a * 262144 + b * 4096 + c * 64 + d
  pure [val / 65536, val / 256 % 256, val % 256]

/-- Standard base64 decoding with `=` padding (RFC 4648): every group of four
characters gives three bytes; a last group ending in `=` gives two bytes, and
one ending in `==` gives one byte. -/
def decodeStd : List Char → Option (List Nat)
  | [] => some []
  | [c1, c2, c3, c4] =>
    if c4 = '=' then
      if c3 = '=' then do
        let a ← decodeChar c1
        let b ← decodeChar c2
        pure [(a * 64 + b) / 16]
      else do
        let a ← decodeChar c1
        let b ← decodeChar c2
        let c ← decodeChar c3
        let val := a * 4096 + b * 64 + c
        pure [val / 1024, val / 4 % 256]
    else decodeQuad c1 c2 c3 c4
  | c1 :: c2 :: c3 :: c4 :: rest => do
    let bs ← decodeQuad c1 c2 c3 c4
    let tail ← decodeStd rest
    pure (bs ++ tail)
  | _ => none

/-- The characters `A-Z`, `a-z`, `0-9`, `+` and `/`. -/
def isBase64Char (c : Char) : Bool := c.isAlphanum || c == '+' || c == '/'

/-! ## The two compilation loops -/

section Loops
variable {α : Type}

/-- The common shape of the two loops of `CompileMatchers`: compile each
source with `f`, append the result, stop with `msg ++ source` at the first
failure. -/
def appendCompiled (f : String → Except String α) (msg : String) :
    List String → List α → List α × Option String
  | [], acc => (acc, none)
  | src :: rest, acc =>
    match f src with
    | .error _ => (acc, some (msg ++ src))
    | .ok compiled => appendCompiled f msg rest (acc ++ [compiled])

theorem appendCompiled_ok_iff (f : String → Except String α) (msg : String)
    (l : List String) (acc : List α) :
    (appendCompiled f msg l acc).2 = none ↔ ∀ p ∈ l, (f p).isOk = true := by
  induction l generalizing acc with
  | nil => simp [appendCompiled]
  | cons src rest ih =>
    cases hf : f src with
    | error e => simp [appendCompiled, hf, Except.isOk, Except.toBool]
    | ok c => simp [appendCompiled, hf, ih, Except.isOk, Except.toBool]

theorem appendCompiled_appends (f : String → Except String α) (msg : String)
    (l : List String) (acc : List α) :
    ∃ n cs, n ≤ l.length ∧ (appendCompiled f msg l acc).1 = acc ++ cs ∧
      cs.map Except.ok = (l.take n).map f ∧
      ((appendCompiled f msg l acc).2 = none → n = l.length) := by
  induction l generalizing acc with
  | nil => exact ⟨0, [], by simp [appendCompiled]⟩
  | cons src rest ih =>
    cases hf : f src with
    | error e => exact ⟨0, [], by simp [appendCompiled, hf]⟩
    | ok c =>
      obtain ⟨n, cs, hn, h1, h2, h3⟩ := ih (acc ++ [c])
      refine ⟨n + 1, c :: cs, by simpa using hn, ?_, ?_, ?_⟩
      · simp [appendCompiled, hf, h1]
      · simp [hf, h2]
      · intro h
        simp only [appendCompiled, hf] at h
        simp [h3 h]

theorem appendCompiled_first_failure (f : String → Except String α) (msg : String)
    (l : List String) (acc : List α) (h : ∃ p ∈ l, (f p).isOk = false) :
    ∃ pre bad post, l = pre ++ bad :: post ∧ (∀ p ∈ pre, (f p).isOk = true) ∧
      (f bad).isOk = false ∧ (appendCompiled f msg l acc).2 = some (msg ++ bad) := by
  induction l generalizing acc with
  | nil => simp at h
  | cons src rest ih =>
    cases hf : f src with
    | error e =>
      exact ⟨[], src, rest, by simp [appendCompiled, hf, Except.isOk, Except.toBool]⟩
    | ok c =>
      have h' : ∃ p ∈ rest, (f p).isOk = false := by
        obtain ⟨p, hp, hp'⟩ := h
        rcases List.mem_cons.1 hp with rfl | hp
        · simp [hf, Except.isOk, Except.toBool] at hp'
        · exact ⟨p, hp, hp'⟩
      obtain ⟨pre, bad, post, h1, h2, h3, h4⟩ := ih (acc ++ [c]) h'
      refine ⟨src :: pre, bad, post, by simp [h1], ?_, h3, ?_⟩
      · intro p hp
        rcases List.mem_cons.1 hp with rfl | hp
        · simp [hf, Except.isOk, Except.toBool]
        · exact h2 p hp
      · simpa [appendCompiled, hf] using h4

end Loops

section LoopsOfSource
variable {Re Ex : Type}

theorem compileRegexes_eq (env : Env Re Ex) (l : List String) (acc : List Re) :
    compileRegexes env l acc = appendCompiled env.regexpCompile "could not compile regex: " l acc := by
  induction l generalizing acc with
  | nil => rfl
  | cons src rest ih =>
    cases hf : env.regexpCompile src <;> simp [compileRegexes, appendCompiled, hf, ih]

theorem compileDSLs_eq (env : Env Re Ex) (l : List String) (acc : List Ex) :
    compileDSLs env l acc =
      appendCompiled (fun dsl => env.NewEvaluableExpressionWithFunctions dsl (helperFunctions env))
        "could not compile dsl: " l acc := by
  induction l generalizing acc with
  | nil => rfl
  | cons src rest ih =>
    cases hf : env.NewEvaluableExpressionWithFunctions src (helperFunctions env) <;>
      simp [compileDSLs, appendCompiled, hf, ih]

end LoopsOfSource

/-! ## Facts about `CompileMatchers` used by several results -/

section Stages
variable {Re Ex : Type}

theorem appendCompiled_success {α : Type} (f : String → Except String α) (msg : String)
    (l : List String) (acc : List α) (h : (appendCompiled f msg l acc).2 = none) :
    ∃ cs, (appendCompiled f msg l acc).1 = acc ++ cs ∧ cs.map Except.ok = l.map f := by
  obtain ⟨n, cs, _, h1, h2, h3⟩ := appendCompiled_appends f msg l acc
  refine ⟨cs, h1, ?_⟩
  rw [h2, h3 h, List.take_length]

theorem map_ok_getElem? {α : Type} (f : String → Except String α) (cs : List α)
    (l : List String) (h : cs.map Except.ok = l.map f) (i : Nat) (src : String)
    (hi : l[i]? = some src) : ∃ c, cs[i]? = some c ∧ f src = .ok c := by
  have h' := congrArg (fun xs => xs[i]?) h
  simp only [List.getElem?_map, hi, Option.map_some'] at h'
  cases hc : cs[i]? with
  | none => simp [hc] at h'
  | some c =>
    refine ⟨c, rfl, ?_⟩
    simp only [hc, Option.map_some', Option.some.injEq] at h'
    exact h'.symm

/-- A successful call went through every stage: the type is registered, both
loops ran to the end, and condition and part were resolved. -/
theorem CompileMatchers_success (env : Env Re Ex) (m : Matcher Re Ex)
    (h : (CompileMatchers env m).2 = none) :
    ∃ t rc dc c p, env.MatcherTypes m.Type_ = some t ∧
      compileRegexes env m.Regex m.regexCompiled = (rc, none) ∧
      compileDSLs env m.DSL m.dslCompiled = (dc, none) ∧
      (m.Condition ≠ "" → env.ConditionTypes m.Condition = some c) ∧
      (m.Condition = "" → c = env.ORCondition) ∧
      (m.Part ≠ "" → env.PartTypes m.Part = some p) ∧
      (m.Part = "" → p = env.BodyPart) ∧
      (CompileMatchers env m).1 =
        { m with matcherType := t, regexCompiled := rc, dslCompiled := dc,
                 condition := c, part := p } := by
  unfold CompileMatchers at h ⊢
  cases ht : env.MatcherTypes m.Type_ with
  | none => simp [ht] at h
  | some t =>
    rcases hr : compileRegexes env m.Regex m.regexCompiled with ⟨rc, _ | e⟩
    · rcases hd : compileDSLs env m.DSL m.dslCompiled with ⟨dc, _ | e⟩
      · simp only [ht, hr, hd] at h ⊢
        by_cases hc : m.Condition = "" <;> by_cases hp : m.Part = ""
        · exact ⟨t, rc, dc, env.ORCondition, env.BodyPart, by simp [hc, hp]⟩
        · cases hpt : env.PartTypes m.Part with
          | none => simp [hc, hp, hpt] at h
          | some p => exact ⟨t, rc, dc, env.ORCondition, p, by simp [hc, hp, hpt]⟩
        · cases hct : env.ConditionTypes m.Condition with
          | none => simp [hc, hp, hct] at h
          | some c => exact ⟨t, rc, dc, c, env.BodyPart, by simp [hc, hp, hct]⟩
        · cases hct : env.ConditionTypes m.Condition with
          | none => simp [hc, hp, hct] at h
          | some c =>
            cases hpt : env.PartTypes m.Part with
            | none => simp [hc, hp, hct, hpt] at h
            | some p => exact ⟨t, rc, dc, c, p, by simp [hc, hp, hct, hpt]⟩
      · simp [ht, hr, hd] at h
    · simp [ht, hr] at h

/-- When every stage can be passed, the call succeeds. -/
theorem CompileMatchers_of_stages (env : Env Re Ex) (m : Matcher Re Ex) (t : Nat)
    (ht : env.MatcherTypes m.Type_ = some t)
    (hr : (compileRegexes env m.Regex m.regexCompiled).2 = none)
    (hd : (compileDSLs env m.DSL m.dslCompiled).2 = none)
    (hc : m.Condition = "" ∨ (env.ConditionTypes m.Condition).isSome = true)
    (hp : m.Part = "" ∨ (env.PartTypes m.Part).isSome = true) :
    (CompileMatchers env m).2 = none ∧
      (m.Condition = "" → (CompileMatchers env m).1.condition = env.ORCondition) ∧
      (m.Part = "" → (CompileMatchers env m).1.part = env.BodyPart) := by
  unfold CompileMatchers
  rcases hr' : compileRegexes env m.Regex m.regexCompiled with ⟨rc, e⟩
  rw [hr'] at hr
  rcases hd' : compileDSLs env m.DSL m.dslCompiled with ⟨dc, e'⟩
  rw [hd'] at hd
  simp only at hr hd
  subst hr hd
  simp only [ht, hr', hd']
  by_cases hc' : m.Condition = "" <;> by_cases hp' : m.Part = ""
  · simp [hc', hp']
  · have hp2 := hp.resolve_left hp'
    obtain ⟨p, hp3⟩ := Option.isSome_iff_exists.1 hp2
    simp [hc', hp', hp3]
  · have hc2 := hc.resolve_left hc'
    obtain ⟨c, hc3⟩ := Option.isSome_iff_exists.1 hc2
    simp [hc', hp', hc3]
  · have hc2 := hc.resolve_left hc'
    obtain ⟨c, hc3⟩ := Option.isSome_iff_exists.1 hc2
    have hp2 := hp.resolve_left hp'
    obtain ⟨p, hp3⟩ := Option.isSome_iff_exists.1 hp2
    simp [hc', hp', hc3, hp3]

/-- Whatever the outcome, the call leaves the authored fields alone and only
appends to the two compiled collections. -/
theorem CompileMatchers_frame (env : Env Re Ex) (m : Matcher Re Ex) :
    (CompileMatchers env m).1.Type_ = m.Type_ ∧
    (CompileMatchers env m).1.Regex = m.Regex ∧
    (CompileMatchers env m).1.DSL = m.DSL ∧
    (CompileMatchers env m).1.Condition = m.Condition ∧
    (CompileMatchers env m).1.Part = m.Part ∧
    (∃ n cs, n ≤ m.Regex.length ∧
      (CompileMatchers env m).1.regexCompiled = m.regexCompiled ++ cs ∧
      cs.map Except.ok = (m.Regex.take n).map env.regexpCompile) ∧
    (∃ k ds, k ≤ m.DSL.length ∧
      (CompileMatchers env m).1.dslCompiled = m.dslCompiled ++ ds ∧
      ds.map Except.ok = (m.DSL.take k).map
        fun dsl => env.NewEvaluableExpressionWithFunctions dsl (helperFunctions env)) := by
  obtain ⟨n, cs, hn, h1, h2, -⟩ :=
    appendCompiled_appends env.regexpCompile "could not compile regex: " m.Regex m.regexCompiled
  obtain ⟨k, ds, hk, h3, h4, -⟩ :=
    appendCompiled_appends
      (fun dsl => env.NewEvaluableExpressionWithFunctions dsl (helperFunctions env))
      "could not compile dsl: " m.DSL m.dslCompiled
  rw [← compileRegexes_eq] at h1
  rw [← compileDSLs_eq] at h3
  have nil_r : ∃ n cs, n ≤ m.Regex.length ∧ m.regexCompiled = m.regexCompiled ++ cs ∧
      cs.map Except.ok = (m.Regex.take n).map env.regexpCompile := ⟨0, [], by simp⟩
  have nil_d : ∃ k ds, k ≤ m.DSL.length ∧ m.dslCompiled = m.dslCompiled ++ ds ∧
      ds.map Except.ok = (m.DSL.take k).map
        fun dsl => env.NewEvaluableExpressionWithFunctions dsl (helperFunctions env) :=
    ⟨0, [], by simp⟩
  have app_r : ∃ n cs', n ≤ m.Regex.length ∧
      (compileRegexes env m.Regex m.regexCompiled).1 = m.regexCompiled ++ cs' ∧
      cs'.map Except.ok = (m.Regex.take n).map env.regexpCompile := ⟨n, cs, hn, h1, h2⟩
  have app_d : ∃ k ds', k ≤ m.DSL.length ∧
      (compileDSLs env m.DSL m.dslCompiled).1 = m.dslCompiled ++ ds' ∧
      ds'.map Except.ok = (m.DSL.take k).map
        fun dsl => env.NewEvaluableExpressionWithFunctions dsl (helperFunctions env) :=
    ⟨k, ds, hk, h3, h4⟩
  unfold CompileMatchers
  cases ht : env.MatcherTypes m.Type_ with
  | none => exact ⟨rfl, rfl, rfl, rfl, rfl, nil_r, nil_d⟩
  | some t =>
    rcases hr : compileRegexes env m.Regex m.regexCompiled with ⟨rc, _ | e⟩
    · rcases hd : compileDSLs env m.DSL m.dslCompiled with ⟨dc, _ | e⟩
      · rw [hr] at app_r
        rw [hd] at app_d
        simp only [hr, hd]
        by_cases hc : m.Condition = "" <;> by_cases hp : m.Part = "" <;>
          cases hct : env.ConditionTypes m.Condition <;>
          cases hpt : env.PartTypes m.Part <;>
          simp only [ne_eq, hct, hpt, if_neg (not_not.2 hc), if_neg (not_not.2 hp), if_pos hc,
            if_pos hp] <;>
          exact ⟨trivial, trivial, trivial, trivial, trivial, app_r, app_d⟩
      · rw [hr] at app_r
        rw [hd] at app_d
        simp only [hr, hd]
        exact ⟨trivial, trivial, trivial, trivial, trivial, app_r, app_d⟩
    · rw [hr] at app_r
      simp only [hr]
      exact ⟨trivial, trivial, trivial, trivial, trivial, app_r, nil_d⟩

theorem appendCompiled_takeWhile {α : Type} (f : String → Except String α) (msg : String)
    (l : List String) (acc : List α) :
    (appendCompiled f msg l acc).1.map Except.ok =
      acc.map Except.ok ++ (l.takeWhile fun p => (f p).isOk).map f := by
  induction l generalizing acc with
  | nil => simp [appendCompiled]
  | cons src rest ih =>
    cases hf : f src with
    | error e => simp [appendCompiled, hf, List.takeWhile, Except.isOk, Except.toBool]
    | ok c =>
      simp [appendCompiled, hf, List.takeWhile, Except.isOk, Except.toBool, ih]

/-- The outcome when `Type` is not registered. -/
theorem CompileMatchers_unknown_type (env : Env Re Ex) (m : Matcher Re Ex)
    (ht : env.MatcherTypes m.Type_ = none) :
    CompileMatchers env m =
      ({ m with matcherType := 0 }, some ("unknown matcher type specified: " ++ m.Type_)) := by
  simp only [CompileMatchers, ht]

/-- With a registered `Type`, the matcher type is resolved and `regexCompiled`
is what the pattern loop reached, whatever happens later. -/
theorem CompileMatchers_known_type (env : Env Re Ex) (m : Matcher Re Ex) (t : Nat)
    (ht : env.MatcherTypes m.Type_ = some t) :
    (CompileMatchers env m).1.matcherType = t ∧
    (CompileMatchers env m).1.regexCompiled =
      (compileRegexes env m.Regex m.regexCompiled).1 := by
  unfold CompileMatchers
  rcases hr : compileRegexes env m.Regex m.regexCompiled with ⟨rc, _ | e⟩
  · rcases hd : compileDSLs env m.DSL m.dslCompiled with ⟨dc, _ | e⟩
    · simp only [ht, hr, hd]
      by_cases hc : m.Condition = "" <;> by_cases hp : m.Part = "" <;>
        cases hct : env.ConditionTypes m.Condition <;>
        cases hpt : env.PartTypes m.Part <;>
        simp only [ne_eq, hct, hpt, if_neg (not_not.2 hc), if_neg (not_not.2 hp), if_pos hc,
          if_pos hp, and_self]
    · simp only [ht, hr, hd, and_self]
  · simp only [ht, hr, and_self]

/-- The outcome when the pattern loop fails. -/
theorem CompileMatchers_regex_error (env : Env Re Ex) (m : Matcher Re Ex) (t : Nat)
    (ht : env.MatcherTypes m.Type_ = some t)
    (hr : (compileRegexes env m.Regex m.regexCompiled).2 ≠ none) :
    CompileMatchers env m =
      ({ m with matcherType := t,
                regexCompiled := (compileRegexes env m.Regex m.regexCompiled).1 },
        (compileRegexes env m.Regex m.regexCompiled).2) := by
  unfold CompileMatchers
  rcases hr' : compileRegexes env m.Regex m.regexCompiled with ⟨rc, _ | e⟩
  · rw [hr'] at hr
    exact absurd rfl hr
  · simp only [ht, hr']

/-- After the pattern loop has run to its end, `dslCompiled` is what the
expression loop reached, whatever happens later. -/
theorem CompileMatchers_dsl_collection (env : Env Re Ex) (m : Matcher Re Ex) (t : Nat)
    (ht : env.MatcherTypes m.Type_ = some t)
    (hr : (compileRegexes env m.Regex m.regexCompiled).2 = none) :
    (CompileMatchers env m).1.dslCompiled = (compileDSLs env m.DSL m.dslCompiled).1 := by
  unfold CompileMatchers
  rcases hr' : compileRegexes env m.Regex m.regexCompiled with ⟨rc, e⟩
  rw [hr'] at hr
  simp only at hr
  subst hr
  rcases hd : compileDSLs env m.DSL m.dslCompiled with ⟨dc, _ | e⟩
  · simp only [ht, hr', hd]
    by_cases hc : m.Condition = "" <;> by_cases hp : m.Part = "" <;>
      cases hct : env.ConditionTypes m.Condition <;>
      cases hpt : env.PartTypes m.Part <;>
      simp only [ne_eq, hct, hpt, if_neg (not_not.2 hc), if_neg (not_not.2 hp), if_pos hc,
        if_pos hp]
  · simp only [ht, hr', hd]

/-- The outcome when the expression loop fails. -/
theorem CompileMatchers_dsl_error (env : Env Re Ex) (m : Matcher Re Ex) (t : Nat)
    (ht : env.MatcherTypes m.Type_ = some t)
    (hr : (compileRegexes env m.Regex m.regexCompiled).2 = none)
    (hd : (compileDSLs env m.DSL m.dslCompiled).2 ≠ none) :
    CompileMatchers env m =
      ({ m with matcherType := t,
                regexCompiled := (compileRegexes env m.Regex m.regexCompiled).1,
                dslCompiled := (compileDSLs env m.DSL m.dslCompiled).1 },
        (compileDSLs env m.DSL m.dslCompiled).2) := by
  unfold CompileMatchers
  rcases hr' : compileRegexes env m.Regex m.regexCompiled with ⟨rc, e⟩
  rw [hr'] at hr
  simp only at hr
  subst hr
  rcases hd' : compileDSLs env m.DSL m.dslCompiled with ⟨dc, _ | e⟩
  · rw [hd'] at hd
    exact absurd rfl hd
  · simp only [ht, hr', hd']

/-- The outcome when `Condition` is not registered. -/
theorem CompileMatchers_condition_error (env : Env Re Ex) (m : Matcher Re Ex) (t : Nat)
    (ht : env.MatcherTypes m.Type_ = some t)
    (hr : (compileRegexes env m.Regex m.regexCompiled).2 = none)
    (hd : (compileDSLs env m.DSL m.dslCompiled).2 = none)
    (hc : m.Condition ≠ "") (hct : env.ConditionTypes m.Condition = none) :
    CompileMatchers env m =
      ({ m with matcherType := t,
                regexCompiled := (compileRegexes env m.Regex m.regexCompiled).1,
                dslCompiled := (compileDSLs env m.DSL m.dslCompiled).1,
                condition := 0 },
        some ("unknown condition specified: " ++ m.Condition)) := by
  unfold CompileMatchers
  rcases hr' : compileRegexes env m.Regex m.regexCompiled with ⟨rc, e⟩
  rw [hr'] at hr
  rcases hd' : compileDSLs env m.DSL m.dslCompiled with ⟨dc, e'⟩
  rw [hd'] at hd
  simp only at hr hd
  subst hr hd
  simp only [ht, hr', hd', ne_eq, hct, if_pos hc]

/-- The state when `Part` is not registered. -/
theorem CompileMatchers_part_error (env : Env Re Ex) (m : Matcher Re Ex) (t : Nat)
    (ht : env.MatcherTypes m.Type_ = some t)
    (hr : (compileRegexes env m.Regex m.regexCompiled).2 = none)
    (hd : (compileDSLs env m.DSL m.dslCompiled).2 = none)
    (hc : m.Condition = "" ∨ (env.ConditionTypes m.Condition).isSome = true)
    (hp : m.Part ≠ "") (hpt : env.PartTypes m.Part = none) :
    (CompileMatchers env m).1.part = 0 ∧
    (m.Condition = "" → (CompileMatchers env m).1.condition = env.ORCondition) ∧
    (m.Condition ≠ "" →
      env.ConditionTypes m.Condition = some (CompileMatchers env m).1.condition) := by
  unfold CompileMatchers
  rcases hr' : compileRegexes env m.Regex m.regexCompiled with ⟨rc, e⟩
  rw [hr'] at hr
  rcases hd' : compileDSLs env m.DSL m.dslCompiled with ⟨dc, e'⟩
  rw [hd'] at hd
  simp only at hr hd
  subst hr hd
  by_cases hc' : m.Condition = ""
  · simp only [ht, hr', hd', ne_eq, hpt, if_neg (not_not.2 hc'), if_pos hp]
    exact ⟨trivial, fun _ => trivial, fun h => absurd hc' h⟩
  · obtain ⟨c, hc3⟩ := Option.isSome_iff_exists.1 (hc.resolve_left hc')
    simp only [ht, hr', hd', ne_eq, hpt, hc3, if_pos hc', if_pos hp]
    exact ⟨trivial, fun h => absurd h hc', fun _ => trivial⟩

end Stages

/-! ## Results on `CompileMatchers` -/

section Compile
variable {Re Ex : Type}

/-- C1. A matcher whose `Type` is not a key of `MatcherTypes` is rejected with
the message `unknown matcher type specified: <Type>`, whatever its patterns,
expressions, condition and part are, and neither compiled collection
changes: no pattern and no expression is compiled. -/
theorem unknown_type_rejected (env : Env Re Ex) (m : Matcher Re Ex)
    (h : env.MatcherTypes m.Type_ = none) :
    (CompileMatchers env m).2 = some ("unknown matcher type specified: " ++ m.Type_) ∧
    (CompileMatchers env m).1.regexCompiled = m.regexCompiled ∧
    (CompileMatchers env m).1.dslCompiled = m.dslCompiled := by
  simp [CompileMatchers, h]

theorem unknown_type_rejected_witness :
    (CompileMatchers sampleEnv (newMatcher "nope" ["(", "a"] [""] "xor" "tail")).2 =
        some "unknown matcher type specified: nope" ∧
    (CompileMatchers sampleEnv (newMatcher "nope" ["(", "a"] [""] "xor" "tail")).1.regexCompiled
        = [] ∧
    (CompileMatchers sampleEnv (newMatcher "nope" ["(", "a"] [""] "xor" "tail")).1.dslCompiled
        = [] :=
  unknown_type_rejected sampleEnv (newMatcher "nope" ["(", "a"] [""] "xor" "tail") (by decide)

/-- C2. With a registered `Type`, if some pattern of `Regex` fails to
compile, the call returns `could not compile regex: <bad>` where `bad` is the
first such pattern: everything before it in the list compiles. What follows
it, the expressions, the condition and the part play no role. -/
theorem first_invalid_pattern_reported (env : Env Re Ex) (m : Matcher Re Ex)
    (ht : (env.MatcherTypes m.Type_).isSome = true)
    (h : ∃ p ∈ m.Regex, (env.regexpCompile p).isOk = false) :
    ∃ pre bad post, m.Regex = pre ++ bad :: post ∧
      (∀ p ∈ pre, (env.regexpCompile p).isOk = true) ∧
      (env.regexpCompile bad).isOk = false ∧
      (CompileMatchers env m).2 = some ("could not compile regex: " ++ bad) := by
  obtain ⟨t, ht⟩ := Option.isSome_iff_exists.1 ht
  obtain ⟨pre, bad, post, h1, h2, h3, h4⟩ :=
    appendCompiled_first_failure env.regexpCompile "could not compile regex: " m.Regex
      m.regexCompiled h
  refine ⟨pre, bad, post, h1, h2, h3, ?_⟩
  rw [← compileRegexes_eq] at h4
  unfold CompileMatchers
  rcases hr : compileRegexes env m.Regex m.regexCompiled with ⟨rc, e⟩
  rw [hr] at h4
  simp only at h4
  subst h4
  simp only [ht, hr]

theorem first_invalid_pattern_reported_witness :
    ∃ pre bad post, ["a.*", "(", "valid.*", "(("] = pre ++ bad :: post ∧
      (∀ p ∈ pre, (sampleEnv.regexpCompile p).isOk = true) ∧
      (sampleEnv.regexpCompile bad).isOk = false ∧
      (CompileMatchers sampleEnv (newMatcher "regex" ["a.*", "(", "valid.*", "(("] [""] "xor" "")).2
        = some ("could not compile regex: " ++ bad) :=
  first_invalid_pattern_reported sampleEnv
    (newMatcher "regex" ["a.*", "(", "valid.*", "(("] [""] "xor" "") (by decide)
    ⟨"(", by decide, by decide⟩

/-- C3, as stated, fails: the call below returns an error, yet the
compiled-pattern collection has gained the compilation of the first pattern
and the resolved matcher type has changed. -/
theorem failure_keeps_partial_results :
    (CompileMatchers sampleEnv (newMatcher "regex" ["a.*", "("] [] "" "")).2 =
        some "could not compile regex: (" ∧
    (newMatcher "regex" ["a.*", "("] [] "" "").regexCompiled = [] ∧
    (CompileMatchers sampleEnv (newMatcher "regex" ["a.*", "("] [] "" "")).1.regexCompiled =
        ["a.*"] ∧
    (newMatcher "regex" ["a.*", "("] [] "" "").matcherType = 0 ∧
    (CompileMatchers sampleEnv (newMatcher "regex" ["a.*", "("] [] "" "")).1.matcherType = 2 := by
  decide

/-- C3, amended. When the call returns an error, the authored fields are
unchanged and the matcher holds exactly the results of the steps that ran
before the failing one. With an unknown type, the matcher type is the zero
value and both collections, the condition and the part are as before. With a
known type, the matcher type is resolved and `regexCompiled` is the old
collection followed by the compilations of the patterns before the first
invalid one. If a pattern is invalid, `dslCompiled`, the condition and the
part are as before; otherwise `dslCompiled` is the old collection followed by
the compilations of the expressions before the first invalid one. If an
expression is invalid, the condition and the part are as before. Otherwise
either the condition is unknown (it is then the zero value, and the part as
before), or the condition is resolved and the part is unknown and the zero
value. -/
theorem failure_keeps_earlier_steps (env : Env Re Ex) (m : Matcher Re Ex)
    (h : (CompileMatchers env m).2 ≠ none) :
    (CompileMatchers env m).1.Type_ = m.Type_ ∧
    (CompileMatchers env m).1.Regex = m.Regex ∧
    (CompileMatchers env m).1.DSL = m.DSL ∧
    (CompileMatchers env m).1.Condition = m.Condition ∧
    (CompileMatchers env m).1.Part = m.Part ∧
    (env.MatcherTypes m.Type_ = none →
      (CompileMatchers env m).1.matcherType = 0 ∧
      (CompileMatchers env m).1.regexCompiled = m.regexCompiled ∧
      (CompileMatchers env m).1.dslCompiled = m.dslCompiled ∧
      (CompileMatchers env m).1.condition = m.condition ∧
      (CompileMatchers env m).1.part = m.part) ∧
    (∀ t, env.MatcherTypes m.Type_ = some t →
      (CompileMatchers env m).1.matcherType = t ∧
      (CompileMatchers env m).1.regexCompiled.map Except.ok =
        m.regexCompiled.map Except.ok ++
          (m.Regex.takeWhile fun p => (env.regexpCompile p).isOk).map env.regexpCompile ∧
      ((∃ p ∈ m.Regex, (env.regexpCompile p).isOk = false) →
        (CompileMatchers env m).1.dslCompiled = m.dslCompiled ∧
        (CompileMatchers env m).1.condition = m.condition ∧
        (CompileMatchers env m).1.part = m.part) ∧
      ((∀ p ∈ m.Regex, (env.regexpCompile p).isOk = true) →
        (CompileMatchers env m).1.dslCompiled.map Except.ok =
          m.dslCompiled.map Except.ok ++
            (m.DSL.takeWhile fun d =>
              (env.NewEvaluableExpressionWithFunctions d (helperFunctions env)).isOk).map
              (fun d => env.NewEvaluableExpressionWithFunctions d (helperFunctions env)) ∧
        ((∃ d ∈ m.DSL,
            (env.NewEvaluableExpressionWithFunctions d (helperFunctions env)).isOk = false) →
          (CompileMatchers env m).1.condition = m.condition ∧
          (CompileMatchers env m).1.part = m.part) ∧
        ((∀ d ∈ m.DSL,
            (env.NewEvaluableExpressionWithFunctions d (helperFunctions env)).isOk = true) →
          (m.Condition ≠ "" ∧ env.ConditionTypes m.Condition = none →
            (CompileMatchers env m).1.condition = 0 ∧
            (CompileMatchers env m).1.part = m.part) ∧
          (m.Condition = "" ∨ (env.ConditionTypes m.Condition).isSome = true →
            m.Part ≠ "" ∧ env.PartTypes m.Part = none ∧
            (CompileMatchers env m).1.part = 0 ∧
            (m.Condition = "" → (CompileMatchers env m).1.condition = env.ORCondition) ∧
            (m.Condition ≠ "" →
              env.ConditionTypes m.Condition =
                some (CompileMatchers env m).1.condition))))) := by
  obtain ⟨h1, h2, h3, h4, h5, -, -⟩ := CompileMatchers_frame env m
  refine ⟨h1, h2, h3, h4, h5, ?_, ?_⟩
  · intro ht
    rw [CompileMatchers_unknown_type env m ht]
    exact ⟨rfl, rfl, rfl, rfl, rfl⟩
  · intro t ht
    have hfst := CompileMatchers_known_type env m t ht
    refine ⟨hfst.1, ?_, ?_, ?_⟩
    · rw [hfst.2, compileRegexes_eq]
      exact appendCompiled_takeWhile _ _ _ _
    · intro hbad
      have hne : (compileRegexes env m.Regex m.regexCompiled).2 ≠ none := by
        rw [compileRegexes_eq]
        intro hnone
        obtain ⟨p, hp, hp'⟩ := hbad
        rw [(appendCompiled_ok_iff _ _ _ _).1 hnone p hp] at hp'
        cases hp'
      rw [CompileMatchers_regex_error env m t ht hne]
      exact ⟨rfl, rfl, rfl⟩
    · intro hR
      have hr : (compileRegexes env m.Regex m.regexCompiled).2 = none := by
        rw [compileRegexes_eq]
        exact (appendCompiled_ok_iff _ _ _ _).2 hR
      refine ⟨?_, ?_, ?_⟩
      · rw [CompileMatchers_dsl_collection env m t ht hr, compileDSLs_eq]
        exact appendCompiled_takeWhile _ _ _ _
      · intro hbad
        have hne : (compileDSLs env m.DSL m.dslCompiled).2 ≠ none := by
          rw [compileDSLs_eq]
          intro hnone
          obtain ⟨d, hd, hd'⟩ := hbad
          rw [(appendCompiled_ok_iff _ _ _ _).1 hnone d hd] at hd'
          cases hd'
        rw [CompileMatchers_dsl_error env m t ht hr hne]
        exact ⟨rfl, rfl⟩
      · intro hD
        have hd : (compileDSLs env m.DSL m.dslCompiled).2 = none := by
          rw [compileDSLs_eq]
          exact (appendCompiled_ok_iff _ _ _ _).2 hD
        refine ⟨?_, ?_⟩
        · rintro ⟨hc, hct⟩
          rw [CompileMatchers_condition_error env m t ht hr hd hc hct]
          exact ⟨rfl, rfl⟩
        · intro hcond
          have hpart : ¬ (m.Part = "" ∨ (env.PartTypes m.Part).isSome = true) := fun hp =>
            h (CompileMatchers_of_stages env m t ht hr hd hcond hp).1
          have hp1 : m.Part ≠ "" := fun hp => hpart (Or.inl hp)
          have hp2 : env.PartTypes m.Part = none := by
            cases hpt : env.PartTypes m.Part with
            | none => rfl
            | some p => exact absurd (Or.inr (by simp [hpt])) hpart
          obtain ⟨e1, e2, e3⟩ := CompileMatchers_part_error env m t ht hr hd hcond hp1 hp2
          exact ⟨hp1, hp2, e1, e2, e3⟩

theorem failure_keeps_earlier_steps_witness :
    (CompileMatchers sampleEnv (newMatcher "regex" ["a.*", "("] [] "" "")).1.matcherType = 2 ∧
    (CompileMatchers sampleEnv (newMatcher "regex" ["a.*", "("] [] "" "")).1.regexCompiled
      = ["a.*"] ∧
    (CompileMatchers sampleEnv (newMatcher "regex" ["a.*", "("] [] "" "")).1.dslCompiled
      = [] ∧
    (CompileMatchers sampleEnv (newMatcher "regex" ["a.*", "("] [] "" "")).1.condition = 0 ∧
    (CompileMatchers sampleEnv (newMatcher "regex" ["a.*", "("] [] "" "")).1.part = 0 := by
  have h := (failure_keeps_earlier_steps sampleEnv
    (newMatcher "regex" ["a.*", "("] [] "" "") (by decide)).2.2.2.2.2.2 2 rfl
  have hr : (CompileMatchers sampleEnv
      (newMatcher "regex" ["a.*", "("] [] "" "")).1.regexCompiled.map
      (Except.ok : String → Except String String) = ["a.*"].map Except.ok := h.2.1
  exact ⟨h.1, List.map_injective_iff.2 (fun _ _ hab => Except.ok.inj hab) hr,
    h.2.2.1 ⟨"(", by decide, rfl⟩⟩

/-- C4. When the call succeeds on a matcher whose compiled collections are
empty, `regexCompiled` is as long as `Regex` and its `i`-th entry is the
compilation of the `i`-th pattern; the same holds for `dslCompiled` and
`DSL`. -/
theorem compiled_collections_follow_sources (env : Env Re Ex) (m : Matcher Re Ex)
    (hr0 : m.regexCompiled = []) (hd0 : m.dslCompiled = [])
    (h : (CompileMatchers env m).2 = none) :
    (CompileMatchers env m).1.regexCompiled.length = m.Regex.length ∧
    (∀ (i : Nat) (p : String), m.Regex[i]? = some p →
      ∃ c, (CompileMatchers env m).1.regexCompiled[i]? = some c ∧
        env.regexpCompile p = .ok c) ∧
    (CompileMatchers env m).1.dslCompiled.length = m.DSL.length ∧
    (∀ (i : Nat) (d : String), m.DSL[i]? = some d →
      ∃ c, (CompileMatchers env m).1.dslCompiled[i]? = some c ∧
        env.NewEvaluableExpressionWithFunctions d (helperFunctions env) = .ok c) := by
  obtain ⟨t, rc, dc, c, p, -, hr, hd, -, -, -, -, hm⟩ := CompileMatchers_success env m h
  rw [compileRegexes_eq] at hr
  rw [compileDSLs_eq] at hd
  obtain ⟨cs, h1, h2⟩ := appendCompiled_success _ _ _ _ (congrArg Prod.snd hr)
  obtain ⟨ds, h3, h4⟩ := appendCompiled_success _ _ _ _ (congrArg Prod.snd hd)
  rw [hr, hr0] at h1
  rw [hd, hd0] at h3
  simp only [List.nil_append] at h1 h3
  subst h1 h3
  rw [hm]
  refine ⟨?_, ?_, ?_, ?_⟩
  · simpa using congrArg List.length h2
  · intro i p hi
    exact map_ok_getElem? _ _ _ h2 i p hi
  · simpa using congrArg List.length h4
  · intro i d hi
    exact map_ok_getElem? _ _ _ h4 i d hi

theorem compiled_collections_follow_sources_witness :
    (CompileMatchers sampleEnv (newMatcher "regex" ["a.*", "(b)"] ["len(body) > 3"] "and"
      "header")).1.regexCompiled.length = 2 :=
  (compiled_collections_follow_sources sampleEnv
    (newMatcher "regex" ["a.*", "(b)"] ["len(body) > 3"] "and" "header") rfl rfl
    (by decide)).1

/-- C5. With a registered `Type`, patterns and expressions that all compile,
an empty `Condition` and an empty `Part`, the call succeeds, the resolved
condition is `ORCondition` and the resolved part is `BodyPart`. -/
theorem defaults_resolved (env : Env Re Ex) (m : Matcher Re Ex)
    (ht : (env.MatcherTypes m.Type_).isSome = true)
    (hr : ∀ p ∈ m.Regex, (env.regexpCompile p).isOk = true)
    (hd : ∀ d ∈ m.DSL,
      (env.NewEvaluableExpressionWithFunctions d (helperFunctions env)).isOk = true)
    (hc : m.Condition = "") (hp : m.Part = "") :
    (CompileMatchers env m).2 = none ∧
    (CompileMatchers env m).1.condition = env.ORCondition ∧
    (CompileMatchers env m).1.part = env.BodyPart := by
  obtain ⟨t, ht⟩ := Option.isSome_iff_exists.1 ht
  have hr' : (compileRegexes env m.Regex m.regexCompiled).2 = none := by
    rw [compileRegexes_eq]
    exact (appendCompiled_ok_iff _ _ _ _).2 hr
  have hd' : (compileDSLs env m.DSL m.dslCompiled).2 = none := by
    rw [compileDSLs_eq]
    exact (appendCompiled_ok_iff _ _ _ _).2 hd
  obtain ⟨h1, h2, h3⟩ := CompileMatchers_of_stages env m t ht hr' hd' (Or.inl hc) (Or.inl hp)
  exact ⟨h1, h2 hc, h3 hp⟩

theorem defaults_resolved_witness :
    (CompileMatchers sampleEnv (newMatcher "dsl" ["a.*"] ["len(body) > 3"] "" "")).2 = none ∧
    (CompileMatchers sampleEnv (newMatcher "dsl" ["a.*"] ["len(body) > 3"] "" "")).1.condition
      = 2 ∧
    (CompileMatchers sampleEnv (newMatcher "dsl" ["a.*"] ["len(body) > 3"] "" "")).1.part = 1 :=
  defaults_resolved sampleEnv (newMatcher "dsl" ["a.*"] ["len(body) > 3"] "" "")
    (by decide) (by decide) (by decide) rfl rfl

/-- C6. The call returns no error exactly when `Type` is a key of
`MatcherTypes`, every pattern compiles, every expression compiles against the
function table, `Condition` is empty or a key of `ConditionTypes`, and `Part`
is empty or a key of `PartTypes`. -/
theorem succeeds_iff_all_valid (env : Env Re Ex) (m : Matcher Re Ex) :
    (CompileMatchers env m).2 = none ↔
      (env.MatcherTypes m.Type_).isSome = true ∧
      (∀ p ∈ m.Regex, (env.regexpCompile p).isOk = true) ∧
      (∀ d ∈ m.DSL,
        (env.NewEvaluableExpressionWithFunctions d (helperFunctions env)).isOk = true) ∧
      (m.Condition = "" ∨ (env.ConditionTypes m.Condition).isSome = true) ∧
      (m.Part = "" ∨ (env.PartTypes m.Part).isSome = true) := by
  constructor
  · intro h
    obtain ⟨t, rc, dc, c, p, ht, hr, hd, hc, -, hp, -, -⟩ := CompileMatchers_success env m h
    rw [compileRegexes_eq] at hr
    rw [compileDSLs_eq] at hd
    refine ⟨by simp [ht], ?_, ?_, ?_, ?_⟩
    · exact (appendCompiled_ok_iff _ _ _ _).1 (congrArg Prod.snd hr)
    · exact (appendCompiled_ok_iff _ _ _ _).1 (congrArg Prod.snd hd)
    · by_cases hc' : m.Condition = ""
      · exact Or.inl hc'
      · exact Or.inr (by simp [hc hc'])
    · by_cases hp' : m.Part = ""
      · exact Or.inl hp'
      · exact Or.inr (by simp [hp hp'])
  · rintro ⟨ht, hr, hd, hc, hp⟩
    obtain ⟨t, ht⟩ := Option.isSome_iff_exists.1 ht
    have hr' : (compileRegexes env m.Regex m.regexCompiled).2 = none := by
      rw [compileRegexes_eq]
      exact (appendCompiled_ok_iff _ _ _ _).2 hr
    have hd' : (compileDSLs env m.DSL m.dslCompiled).2 = none := by
      rw [compileDSLs_eq]
      exact (appendCompiled_ok_iff _ _ _ _).2 hd
    exact (CompileMatchers_of_stages env m t ht hr' hd' hc hp).1

/-- C7. After a successful call the resolved matcher type is the
`MatcherTypes` value of `Type`; the resolved condition is the
`ConditionTypes` value of `Condition` when that is non-empty and `ORCondition`
otherwise; the resolved part is the `PartTypes` value of `Part` when that is
non-empty and `BodyPart` otherwise. -/
theorem resolved_enums_from_registries (env : Env Re Ex) (m : Matcher Re Ex)
    (h : (CompileMatchers env m).2 = none) :
    env.MatcherTypes m.Type_ = some (CompileMatchers env m).1.matcherType ∧
    (m.Condition ≠ "" →
      env.ConditionTypes m.Condition = some (CompileMatchers env m).1.condition) ∧
    (m.Condition = "" → (CompileMatchers env m).1.condition = env.ORCondition) ∧
    (m.Part ≠ "" → env.PartTypes m.Part = some (CompileMatchers env m).1.part) ∧
    (m.Part = "" → (CompileMatchers env m).1.part = env.BodyPart) := by
  obtain ⟨t, rc, dc, c, p, ht, -, -, hc, hc0, hp, hp0, hm⟩ := CompileMatchers_success env m h
  rw [hm]
  exact ⟨ht, hc, hc0, hp, hp0⟩

theorem resolved_enums_from_registries_witness :
    sampleEnv.MatcherTypes "regex" = some
      (CompileMatchers sampleEnv (newMatcher "regex" ["a.*"] [] "and" "header")).1.matcherType :=
  (resolved_enums_from_registries sampleEnv (newMatcher "regex" ["a.*"] [] "and" "header")
    (by decide)).1

end Compile

/-! ## Results on the function table -/

section Helpers
variable {Re Ex : Type}

theorem stringBytes_length_ascii (cs : List Char) (h : ∀ c ∈ cs, c.toNat < 128) :
    (cs.flatMap fun c => (String.utf8EncodeChar c).map UInt8.toNat).length = cs.length := by
  induction cs with
  | nil => rfl
  | cons c cs ih =>
    have hc : c.toNat < 128 := h c (List.mem_cons_self c cs)
    have h1 : c.utf8Size = 1 := by
      have : c.val ≤ 127 := by
        rw [UInt32.le_def]
        exact Nat.lt_succ_iff.1 hc
      simp [Char.utf8Size, this]
    have ih' := ih fun d hd => h d (List.mem_cons_of_mem c hd)
    simp only [List.flatMap_cons, List.length_append, List.length_map,
      String.length_utf8EncodeChar, h1, ih', List.length_cons]
    omega

/-- C8. The table's `base64_decode` does not decode: on every string it
returns what `base64` returns. Encoding `a` gives `YQ==`, and "decoding"
`YQ==` gives `WVE9PQ==` instead of `a`. -/
theorem base64_decode_encodes_again (env : Env Re Ex) :
    (∀ s, callHelper env "base64_decode" [.str s] = callHelper env "base64" [.str s]) ∧
    callHelper env "base64" [.str "a"] = some (.ok (.str "YQ==")) ∧
    callHelper env "base64_decode" [.str "YQ=="] = some (.ok (.str "WVE9PQ==")) :=
  ⟨fun _ => rfl, rfl, rfl⟩

/-- C9. Called with the two arguments `(s, cutset)`, the table's `trim` reads
`args[2]` and panics with an index out of range, for every `s` and `cutset`;
`trimleft` and `trimright` read `args[1]` and return. -/
theorem trim_two_arguments_panics (env : Env Re Ex) (s cutset : String) :
    callHelper env "trim" [.str s, .str cutset] = some (.error (.indexOutOfRange 2 2)) ∧
    callHelper env "trimleft" [.str s, .str cutset] =
      some (.ok (.str (stringsTrimLeft s cutset))) ∧
    callHelper env "trimright" [.str s, .str cutset] =
      some (.ok (.str (stringsTrimRight s cutset))) :=
  ⟨rfl, rfl, rfl⟩

/-- C10, as stated, fails: `len` of the one-character string `é` is 2. -/
theorem len_counts_bytes_not_characters :
    "é".length = 1 ∧ callHelper sampleEnv "len" [.str "é"] = some (.ok (.num 2)) ∧
    callHelper sampleEnv "len" [.str "é"] ≠ some (.ok (.num "é".length)) :=
  ⟨rfl, rfl, fun h => by
    have h2 : some (Except.ok (Value.num 2) : Except Failure Value) =
        some (Except.ok (Value.num 1)) := h
    simp at h2⟩

/-- C10, amended. The table's `len` returns, as a number, the number of bytes
of the UTF-8 encoding of `s`; when every character of `s` is ASCII this is
the number of characters of `s`. -/
theorem len_is_byte_length (env : Env Re Ex) (s : String) :
    callHelper env "len" [.str s] = some (.ok (.num (stringBytes s).length)) ∧
    ((∀ c ∈ s.toList, c.toNat < 128) →
      callHelper env "len" [.str s] = some (.ok (.num s.length))) := by
  refine ⟨rfl, fun h => ?_⟩
  have h1 : callHelper env "len" [.str s] = some (.ok (.num (stringBytes s).length)) := rfl
  rw [h1, stringBytes, stringBytes_length_ascii s.toList h]
  rfl

theorem len_is_byte_length_witness :
    callHelper sampleEnv "len" [.str "hello"] = some (.ok (.num 5)) :=
  (len_is_byte_length sampleEnv "hello").2 (by decide)

end Helpers

/-! ## Digests, affixes, search -/

section Digests
variable {Re Ex : Type}

theorem hexDigit_roundtrip :
    ∀ n, n < 16 → hexDigitValue (hextable.getD n '0') = n ∧ hextable.getD n '0' ∈ hextable := by
  decide

theorem hexPairs_spec (l : List Nat) (hb : ∀ b ∈ l, b < 256) :
    (l.flatMap fun b => [hextable.getD (b / 16) '0', hextable.getD (b % 16) '0']).length
        = 2 * l.length ∧
    (∀ c ∈ l.flatMap fun b => [hextable.getD (b / 16) '0', hextable.getD (b % 16) '0'],
      c ∈ hextable) ∧
    ∀ (i b : Nat), l[i]? = some b →
      (l.flatMap fun b => [hextable.getD (b / 16) '0', hextable.getD (b % 16) '0'])[2 * i]?
          = some (hextable.getD (b / 16) '0') ∧
      (l.flatMap fun b => [hextable.getD (b / 16) '0', hextable.getD (b % 16) '0'])[2 * i + 1]?
          = some (hextable.getD (b % 16) '0') := by
  induction l with
  | nil => simp
  | cons x xs ih =>
    have hx : x < 256 := hb x (List.mem_cons_self x xs)
    obtain ⟨ih1, ih2, ih3⟩ := ih fun b h => hb b (List.mem_cons_of_mem x h)
    refine ⟨?_, ?_, ?_⟩
    · simp only [List.flatMap_cons, List.length_append, List.length_cons, List.length_nil, ih1]
      omega
    · intro c hc
      simp only [List.flatMap_cons, List.mem_append, List.mem_cons, List.mem_singleton,
        List.not_mem_nil, or_false] at hc
      rcases hc with (rfl | rfl) | hc
      · exact (hexDigit_roundtrip (x / 16) (by omega)).2
      · exact (hexDigit_roundtrip (x % 16) (by omega)).2
      · exact ih2 c hc
    · intro i b hi
      cases i with
      | zero =>
        simp only [List.getElem?_cons_zero, Option.some.injEq] at hi
        subst hi
        simp
      | succ j =>
        simp only [List.getElem?_cons_succ] at hi
        obtain ⟨h1, h2⟩ := ih3 j b hi
        have e1 : 2 * (j + 1) = (2 * j) + 1 + 1 := by omega
        have e2 : 2 * (j + 1) + 1 = (2 * j + 1) + 1 + 1 := by omega
        simp only [List.flatMap_cons, List.cons_append, List.nil_append]
        rw [e2, e1]
        simp only [List.getElem?_cons_succ]
        exact ⟨h1, h2⟩

/-- C11. The table's `sha256` returns the `[32]byte` array produced by
`sha256.Sum256`, never a value of string kind; `md5` next to it renders its
digest with `hex.EncodeToString`. -/
theorem sha256_returns_byte_array (env : Env Re Ex) (s : String) :
    callHelper env "sha256" [.str s] = some (.ok (.bytes (env.sha256Sum (stringBytes s)))) ∧
    (∀ out : String, callHelper env "sha256" [.str s] ≠ some (.ok (.str out))) ∧
    callHelper env "md5" [.str s] =
      some (.ok (.str (hexEncodeToString (env.md5Sum (stringBytes s))))) := by
  refine ⟨rfl, fun out h => ?_, rfl⟩
  have h2 : some (Except.ok (Value.bytes (env.sha256Sum (stringBytes s))) :
      Except Failure Value) = some (Except.ok (Value.str out)) := h
  simp at h2

/-- C12. When `md5.Sum` yields its 16 bytes, the table's `md5` returns a
string of exactly 32 characters, each one of `0123456789abcdef`; characters
`2i` and `2i+1` are the high and the low hexadecimal digit of byte `i` of the
digest. -/
theorem md5_is_hex_of_digest (env : Env Re Ex) (s : String)
    (h16 : (env.md5Sum (stringBytes s)).length = 16)
    (hb : ∀ b ∈ env.md5Sum (stringBytes s), b < 256) :
    ∃ out : String, callHelper env "md5" [.str s] = some (.ok (.str out)) ∧
      out.length = 32 ∧
      (∀ c ∈ out.toList, c ∈ "0123456789abcdef".toList) ∧
      ∀ (i b : Nat), (env.md5Sum (stringBytes s))[i]? = some b →
        ∃ hi lo, out.toList[2 * i]? = some hi ∧ out.toList[2 * i + 1]? = some lo ∧
          hexDigitValue hi = b / 16 ∧ hexDigitValue lo = b % 16 := by
  obtain ⟨h1, h2, h3⟩ := hexPairs_spec (env.md5Sum (stringBytes s)) hb
  refine ⟨hexEncodeToString (env.md5Sum (stringBytes s)), rfl, ?_, ?_, ?_⟩
  · show (List.flatMap _ _).length = 32
    rw [h1, h16]
  · exact h2
  · intro i b hi
    have hlt : b < 256 := hb b (List.mem_iff_getElem?.2 ⟨i, hi⟩)
    obtain ⟨e1, e2⟩ := h3 i b hi
    exact ⟨_, _, e1, e2, (hexDigit_roundtrip (b / 16) (by omega)).1,
      (hexDigit_roundtrip (b % 16) (by omega)).1⟩

theorem md5_is_hex_of_digest_witness :
    ∃ out : String, callHelper sampleEnv "md5" [.str "abc"] = some (.ok (.str out)) ∧
      out.length = 32 ∧
      (∀ c ∈ out.toList, c ∈ "0123456789abcdef".toList) ∧
      ∀ (i b : Nat), (sampleEnv.md5Sum (stringBytes "abc"))[i]? = some b →
        ∃ hi lo, out.toList[2 * i]? = some hi ∧ out.toList[2 * i + 1]? = some lo ∧
          hexDigitValue hi = b / 16 ∧ hexDigitValue lo = b % 16 :=
  md5_is_hex_of_digest sampleEnv "abc" (by decide) (by decide)

end Digests

section Affixes
variable {Re Ex : Type}

theorem hasPrefixChars_iff (s p : List Char) : hasPrefixChars s p = true ↔ p <+: s := by
  simp [hasPrefixChars]

theorem hasSuffixChars_iff (s p : List Char) : hasSuffixChars s p = true ↔ p <:+ s := by
  simp [hasSuffixChars, List.reverse_prefix]

theorem stringsTrimPrefix_append (a r : String) : stringsTrimPrefix (a ++ r) a = r := by
  have h : hasPrefixChars (a ++ r).toList a.toList = true := by
    rw [hasPrefixChars_iff]
    exact ⟨r.toList, by simp⟩
  simp only [stringsTrimPrefix, h, if_true]
  simp

theorem stringsTrimPrefix_of_not (s a : String) (h : ¬ ∃ r, s = a ++ r) :
    stringsTrimPrefix s a = s := by
  have h' : ¬ hasPrefixChars s.toList a.toList = true := by
    rw [hasPrefixChars_iff]
    rintro ⟨t, ht⟩
    exact h ⟨String.mk t, by
      apply String.ext
      simpa using ht.symm⟩
  rw [stringsTrimPrefix, if_neg h']

theorem stringsTrimSuffix_append (r a : String) : stringsTrimSuffix (r ++ a) a = r := by
  have h : hasSuffixChars (r ++ a).toList a.toList = true := by
    rw [hasSuffixChars_iff]
    exact ⟨r.toList, by simp⟩
  simp only [stringsTrimSuffix, h, if_true]
  simp

theorem stringsTrimSuffix_of_not (s a : String) (h : ¬ ∃ r, s = r ++ a) :
    stringsTrimSuffix s a = s := by
  have h' : ¬ hasSuffixChars s.toList a.toList = true := by
    rw [hasSuffixChars_iff]
    rintro ⟨t, ht⟩
    exact h ⟨String.mk t, by
      apply String.ext
      simpa using ht.symm⟩
  rw [stringsTrimSuffix, if_neg h']

/-- C13. `trimprefix(s, a)` is `r` when `s = a ++ r` and `s` when `a` is not
a prefix of `s`; `trimsuffix(s, a)` is `r` when `s = r ++ a` and `s` when `a`
is not a suffix of `s`. Only the one occurrence at the end in question is
removed. -/
theorem trimprefix_trimsuffix_spec (env : Env Re Ex) (s a : String) :
    (∀ r, s = a ++ r → callHelper env "trimprefix" [.str s, .str a] = some (.ok (.str r))) ∧
    ((¬ ∃ r, s = a ++ r) →
      callHelper env "trimprefix" [.str s, .str a] = some (.ok (.str s))) ∧
    (∀ r, s = r ++ a → callHelper env "trimsuffix" [.str s, .str a] = some (.ok (.str r))) ∧
    ((¬ ∃ r, s = r ++ a) →
      callHelper env "trimsuffix" [.str s, .str a] = some (.ok (.str s))) := by
  have hp : callHelper env "trimprefix" [.str s, .str a] =
      some (.ok (.str (stringsTrimPrefix s a))) := rfl
  have hs : callHelper env "trimsuffix" [.str s, .str a] =
      some (.ok (.str (stringsTrimSuffix s a))) := rfl
  refine ⟨?_, ?_, ?_, ?_⟩
  · rintro r rfl
    rw [hp, stringsTrimPrefix_append]
  · intro h
    rw [hp, stringsTrimPrefix_of_not s a h]
  · rintro r rfl
    rw [hs, stringsTrimSuffix_append]
  · intro h
    rw [hs, stringsTrimSuffix_of_not s a h]

theorem trimprefix_trimsuffix_spec_witness :
    callHelper sampleEnv "trimprefix" [.str "foofoobar", .str "foo"] =
        some (.ok (.str "foobar")) ∧
    callHelper sampleEnv "trimsuffix" [.str "foobar", .str "bar"] = some (.ok (.str "foo")) :=
  ⟨(trimprefix_trimsuffix_spec sampleEnv "foofoobar" "foo").1 "foobar" (by decide),
   (trimprefix_trimsuffix_spec sampleEnv "foobar" "bar").2.2.1 "foo" (by decide)⟩

end Affixes

section Search
variable {Re Ex : Type}

theorem containsChars_iff (s sub : List Char) : containsChars s sub = true ↔ sub <:+: s := by
  induction s with
  | nil => simp [containsChars, List.infix_nil]
  | cons c cs ih =>
    rw [containsChars, Bool.or_eq_true, hasPrefixChars_iff, ih, List.infix_cons_iff]

theorem infix_iff_strings (s sub : String) :
    sub.toList <:+: s.toList ↔ ∃ p q : String, s = p ++ sub ++ q := by
  constructor
  · rintro ⟨p, q, h⟩
    refine ⟨String.mk p, String.mk q, ?_⟩
    apply String.ext
    simpa using h.symm
  · rintro ⟨p, q, rfl⟩
    exact ⟨p.toList, q.toList, by simp⟩

/-- C14. The table's `contains` returns the boolean `true` exactly when
`s = p ++ sub ++ q` for some strings `p` and `q`; with an empty `sub` it
returns `true` for every `s`. -/
theorem contains_iff_occurrence (env : Env Re Ex) (s sub : String) :
    callHelper env "contains" [.str s, .str sub] =
      some (.ok (.bool (stringsContains s sub))) ∧
    (stringsContains s sub = true ↔ ∃ p q : String, s = p ++ sub ++ q) ∧
    callHelper env "contains" [.str s, .str ""] = some (.ok (.bool true)) ∧
    callHelper env "contains" [.str "hello world", .str "world"] = some (.ok (.bool true)) := by
  have h : ∀ t : String, stringsContains s t = true ↔ ∃ p q : String, s = p ++ t ++ q :=
    fun t => by rw [stringsContains, containsChars_iff, infix_iff_strings]
  refine ⟨rfl, h sub, ?_, rfl⟩
  have h1 : callHelper env "contains" [.str s, .str ""] =
      some (.ok (.bool (stringsContains s ""))) := rfl
  rw [h1, (h "").2 ⟨"", s, by simp⟩]

/-- C15. Called as `regex(pattern, s)`: when `regexp.Compile(pattern)` fails,
the call returns that error and no value; when it succeeds, the call returns
the boolean `MatchString(s)` of the compiled pattern. So an error is returned
exactly when the pattern does not compile. -/
theorem regex_error_iff_pattern_invalid (env : Env Re Ex) (pattern s : String) :
    (∀ e, env.regexpCompile pattern = .error e →
      callHelper env "regex" [.str pattern, .str s] = some (.error (.error e))) ∧
    (∀ re, env.regexpCompile pattern = .ok re →
      callHelper env "regex" [.str pattern, .str s] =
        some (.ok (.bool (env.MatchString re s)))) ∧
    ((∃ e, callHelper env "regex" [.str pattern, .str s] = some (.error e)) ↔
      (env.regexpCompile pattern).isOk = false) := by
  have hcall : callHelper env "regex" [.str pattern, .str s] =
      some (match env.regexpCompile pattern with
        | .error err => .error (.error err)
        | .ok compiled => .ok (.bool (env.MatchString compiled s))) := by
    show some _ = some _
    congr 1
  rw [hcall]
  cases hc : env.regexpCompile pattern with
  | error e0 =>
    refine ⟨fun e he => ?_, fun re hre => ?_, ?_⟩
    · cases he; rfl
    · cases hre
    · simp [Except.isOk, Except.toBool]
  | ok re0 =>
    refine ⟨fun e he => ?_, fun re hre => ?_, ?_⟩
    · cases he
    · cases hre; rfl
    · simp [Except.isOk, Except.toBool]

theorem regex_error_iff_pattern_invalid_witness :
    callHelper sampleEnv "regex" [.str "(", .str "abc"] =
        some (.error (.error "error parsing regexp: missing closing )")) ∧
    callHelper sampleEnv "regex" [.str "b", .str "abc"] = some (.ok (.bool true)) :=
  ⟨(regex_error_iff_pattern_invalid sampleEnv "(" "abc").1 _ rfl,
   (regex_error_iff_pattern_invalid sampleEnv "b" "abc").2.1 "b" rfl⟩

end Search

section TypeFailures
variable {Re Ex : Type}

theorem argString_nonstr (args : List Value) (i : Nat) (v : Value)
    (hv : args[i]? = some v) (hns : v.isStr = false) :
    argString args i = .error (.notAString v) := by
  unfold argString
  rw [List.get?_eq_getElem?, hv]
  cases v <;> simp_all [Value.isStr]

theorem argString_in_range (args : List Value) (j : Nat) (h : j < args.length) :
    (∃ s, argString args j = .ok s ∧ args[j]? = some (.str s)) ∨
    (∃ w, w.isStr = false ∧ argString args j = .error (.notAString w)) := by
  obtain ⟨w, hw⟩ : ∃ w, args[j]? = some w := ⟨args[j], List.getElem?_eq_getElem h⟩
  cases hstr : w.isStr with
  | false => exact Or.inr ⟨w, hstr, argString_nonstr args j w hw hstr⟩
  | true =>
    cases w with
    | str s =>
      refine Or.inl ⟨s, ?_, hw⟩
      unfold argString
      rw [List.get?_eq_getElem?, hw]
    | num n => simp [Value.isStr] at hstr
    | bool b => simp [Value.isStr] at hstr
    | bytes b => simp [Value.isStr] at hstr

theorem lt_length_of_getElem? (args : List Value) (i : Nat) (v : Value)
    (hv : args[i]? = some v) : i < args.length := by
  by_contra h
  rw [List.getElem?_eq_none (Nat.le_of_not_lt h)] at hv
  cases hv

/-- A function that converts `args[0]` only. -/
theorem unary_fails (g : String → Except Failure Value) (args : List Value) (v : Value)
    (hv : args[0]? = some v) (hns : v.isStr = false) :
    ∃ w, w.isStr = false ∧ (argString args 0 >>= g) = .error (.notAString w) :=
  ⟨v, hns, by rw [argString_nonstr args 0 v hv hns]; rfl⟩

/-- A function that converts `args[0]`, then `args[j]`. -/
theorem binary_fails (j : Nat) (g : String → String → Except Failure Value)
    (args : List Value) (i : Nat) (v : Value) (hi : i = 0 ∨ i = j)
    (hv : args[i]? = some v) (hns : v.isStr = false) :
    ∃ w, w.isStr = false ∧
      (argString args 0 >>= fun s => argString args j >>= fun t => g s t)
        = .error (.notAString w) := by
  have hlen := lt_length_of_getElem? args i v hv
  rcases argString_in_range args 0 (by omega) with ⟨s, h0, -⟩ | ⟨w, hw, h0⟩
  · rcases hi with rfl | rfl
    · rw [argString_nonstr args 0 v hv hns] at h0
      cases h0
    · exact ⟨v, hns, by rw [h0, argString_nonstr args i v hv hns]; rfl⟩
  · exact ⟨w, hw, by rw [h0]; rfl⟩

/-- A function that converts `args[0]`, `args[1]` and `args[2]`, in this
order. -/
theorem ternary_fails (g : String → String → String → Except Failure Value)
    (args : List Value) (i : Nat) (v : Value) (hi : i = 0 ∨ i = 1 ∨ i = 2)
    (hv : args[i]? = some v) (hns : v.isStr = false) :
    ∃ w, w.isStr = false ∧
      (argString args 0 >>= fun s => argString args 1 >>= fun t =>
        argString args 2 >>= fun u => g s t u) = .error (.notAString w) := by
  have hlen := lt_length_of_getElem? args i v hv
  rcases argString_in_range args 0 (by omega) with ⟨s, h0, -⟩ | ⟨w, hw, h0⟩
  · rcases hi with rfl | hi
    · rw [argString_nonstr args 0 v hv hns] at h0
      cases h0
    · rcases argString_in_range args 1 (by omega) with ⟨t, h1, -⟩ | ⟨w, hw, h1⟩
      · rcases hi with rfl | rfl
        · rw [argString_nonstr args 1 v hv hns] at h1
          cases h1
        · exact ⟨v, hns, by rw [h0, h1, argString_nonstr args 2 v hv hns]; rfl⟩
      · exact ⟨w, hw, by rw [h0, h1]; rfl⟩
  · exact ⟨w, hw, by rw [h0]; rfl⟩

/-- The function `regex`: converts `args[0]`, compiles it, and only then
converts `args[1]`. -/
theorem regex_fails (env : Env Re Ex) (args : List Value) (i : Nat) (v : Value)
    (hi : i = 0 ∨ i = 1) (hv : args[i]? = some v) (hns : v.isStr = false) :
    (∃ w, w.isStr = false ∧
      (argString args 0 >>= fun p =>
        match env.regexpCompile p with
        | .error err => (.error (.error err) : Except Failure Value)
        | .ok compiled => argString args 1 >>= fun s =>
            pure (.bool (env.MatchString compiled s))) = .error (.notAString w)) ∨
    (∃ p e, args[0]? = some (.str p) ∧ env.regexpCompile p = .error e ∧
      (argString args 0 >>= fun p =>
        match env.regexpCompile p with
        | .error err => (.error (.error err) : Except Failure Value)
        | .ok compiled => argString args 1 >>= fun s =>
            pure (.bool (env.MatchString compiled s))) = .error (.error e)) := by
  have hlen := lt_length_of_getElem? args i v hv
  rcases argString_in_range args 0 (by omega) with ⟨p, h0, hp⟩ | ⟨w, hw, h0⟩
  · rcases hi with rfl | rfl
    · rw [argString_nonstr args 0 v hv hns] at h0
      cases h0
    · cases hc : env.regexpCompile p with
      | error e =>
        refine Or.inr ⟨p, e, hp, hc, ?_⟩
        rw [h0]
        show (match env.regexpCompile p with
          | .error err => (.error (.error err) : Except Failure Value)
          | .ok compiled => _) = _
        rw [hc]
      | ok re =>
        refine Or.inl ⟨v, hns, ?_⟩
        rw [h0, argString_nonstr args 1 v hv hns]
        show (match env.regexpCompile p with
          | .error err => (.error (.error err) : Except Failure Value)
          | .ok compiled => _) = _
        rw [hc]
        rfl
  · exact Or.inl ⟨w, hw, by rw [h0]; rfl⟩

/-- C16, as stated, fails: in `regex("(", 5)` the second argument, which
`regex` converts with `.(string)`, is a number, yet the call is no type
failure: `(` does not compile and the call returns that error. -/
theorem regex_compile_error_precedes_type_failure :
    1 ∈ stringPositions "regex" ∧ (Value.num 5).isStr = false ∧
    (∃ e, sampleEnv.regexpCompile "(" = .error e ∧
      callHelper sampleEnv "regex" [.str "(", .num 5] = some (.error (.error e))) ∧
    ∀ w, callHelper sampleEnv "regex" [.str "(", .num 5] ≠ some (.error (.notAString w)) := by
  refine ⟨by decide, rfl, ⟨_, rfl, rfl⟩, fun w h => ?_⟩
  have h2 : some (Except.error (Failure.error "error parsing regexp: missing closing )") :
      Except Failure Value) = some (Except.error (Failure.notAString w)) := h
  simp at h2

/-- C16, amended. In a call of a function of the table where an argument
position that the function converts with `.(string)` holds a non-string
value, the call produces no value and nothing is coerced: it panics on the
type assertion of a non-string argument, except that `regex`, when its
pattern argument is a string that does not compile, returns the compile error
before the second argument is converted. -/
theorem non_string_argument_fails (env : Env Re Ex) (name : String)
    (f : ExpressionFunction) (args : List Value) (i : Nat) (v : Value)
    (hf : helperFunctions env name = some f) (hi : i ∈ stringPositions name)
    (hv : args[i]? = some v) (hns : v.isStr = false) :
    (∀ r, f args ≠ .ok r) ∧
    ((∃ w, w.isStr = false ∧ f args = .error (.notAString w)) ∨
      (name = "regex" ∧ ∃ p e, args[0]? = some (.str p) ∧
        env.regexpCompile p = .error e ∧ f args = .error (.error e))) := by
  have key : (∃ w, w.isStr = false ∧ f args = .error (.notAString w)) ∨
      (name = "regex" ∧ ∃ p e, args[0]? = some (.str p) ∧
        env.regexpCompile p = .error e ∧ f args = .error (.error e)) := by
    unfold helperFunctions at hf
    unfold stringPositions at hi
    split at hf <;> simp only [Option.some.injEq, reduceCtorEq] at hf <;> subst hf <;>
      simp only [List.mem_cons, List.mem_singleton, List.not_mem_nil, or_false] at hi
    case h_16 =>
      rcases regex_fails env args i v hi hv hns with h | h
      · exact Or.inl h
      · exact Or.inr ⟨rfl, h⟩
    all_goals first
      | exact Or.inl (unary_fails _ args v (hi ▸ hv) hns)
      | exact Or.inl (binary_fails _ _ args i v hi hv hns)
      | exact Or.inl (ternary_fails _ args i v hi hv hns)
  refine ⟨fun r hr => ?_, key⟩
  rcases key with ⟨w, -, hw⟩ | ⟨-, p, e, -, -, he⟩
  · rw [hw] at hr
    cases hr
  · rw [he] at hr
    cases hr

theorem non_string_argument_fails_witness :
    ∃ w, w.isStr = false ∧
      callHelper sampleEnv "contains" [.str "abc", .num 5] = some (.error (.notAString w)) := by
  rcases (non_string_argument_fails sampleEnv "contains" _ [.str "abc", .num 5] 1 (.num 5)
    rfl (by decide) rfl rfl).2 with ⟨w, hw, h⟩ | ⟨h, -⟩
  · exact ⟨w, hw, congrArg some h⟩
  · exact absurd h (by decide)

end TypeFailures

section Replace
variable {Re Ex : Type}

theorem splitLoop_ne_nil (old : List Char) (fuel : Nat) (s cur : List Char) :
    splitLoop old fuel s cur ≠ [] := by
  induction fuel generalizing s cur with
  | zero => simp [splitLoop]
  | succ n ih =>
    cases s with
    | nil => simp [splitLoop]
    | cons c cs =>
      rw [splitLoop]
      split
      · simp
      · exact ih cs (cur ++ [c])

theorem joinChars_cons (sep p : List Char) (rest : List (List Char)) (h : rest ≠ []) :
    joinChars sep (p :: rest) = p ++ sep ++ joinChars sep rest := by
  cases rest with
  | nil => exact absurd rfl h
  | cons q qs => rfl

/-- Joining the pieces with `new` is what the replacement loop computes. -/
theorem joinChars_splitLoop (old new : List Char) (fuel : Nat) (s cur : List Char) :
    joinChars new (splitLoop old fuel s cur) = cur ++ replaceLoop old new fuel s := by
  induction fuel generalizing s cur with
  | zero => simp [splitLoop, replaceLoop, joinChars]
  | succ n ih =>
    cases s with
    | nil => simp [splitLoop, replaceLoop, joinChars]
    | cons c cs =>
      rw [splitLoop, replaceLoop]
      split
      · rw [joinChars_cons _ _ _ (splitLoop_ne_nil _ _ _ _), ih]
        simp
      · rw [ih]
        simp

theorem replaceLoop_same (old : List Char) (fuel : Nat) (s : List Char) :
    replaceLoop old old fuel s = s := by
  induction fuel generalizing s with
  | zero => simp [replaceLoop]
  | succ n ih =>
    cases s with
    | nil => simp [replaceLoop]
    | cons c cs =>
      rw [replaceLoop]
      split
      · next h =>
        rw [ih]
        exact List.prefix_iff_eq_append.1 ((hasPrefixChars_iff _ _).1 h)
      · rw [ih]

theorem replaceLoop_of_not_contains (old new : List Char) (fuel : Nat) (s : List Char)
    (h : containsChars s old = false) : replaceLoop old new fuel s = s := by
  induction fuel generalizing s with
  | zero => simp [replaceLoop]
  | succ n ih =>
    cases s with
    | nil => simp [replaceLoop]
    | cons c cs =>
      rw [containsChars, Bool.or_eq_false_iff] at h
      rw [replaceLoop, if_neg (by simp [h.1]), ih cs h.2]

theorem toList_ne_nil_of_ne_empty (t : String) (h : t ≠ "") : t.toList ≠ [] := by
  intro h'
  apply h
  apply String.ext
  simpa using h'

theorem replaceChars_eq_join (s old new : List Char) (hold : old ≠ []) :
    replaceChars s old new = joinChars new (splitChars s old) := by
  rw [splitChars, joinChars_splitLoop, List.nil_append, replaceChars]
  by_cases h : old = new
  · rw [if_pos h, ← h, replaceLoop_same]
  · rw [if_neg h, if_neg hold]

theorem not_infix_of_no_prefix (old : List Char) (hold : old ≠ []) (cur s : List Char)
    (hcur : ∀ k, k < cur.length → ¬ old <+: (cur ++ s).drop k) : ¬ old <:+: cur := by
  rintro ⟨a, b, rfl⟩
  have hlen : 0 < old.length := List.length_pos.2 hold
  refine hcur a.length (by simp only [List.length_append]; omega) ⟨b ++ s, ?_⟩
  simp [List.append_assoc]

/-- No piece of the split contains an occurrence of `old`. -/
theorem splitLoop_pieces_free (old : List Char) (hold : old ≠ []) (fuel : Nat)
    (s cur : List Char) (hfuel : s.length ≤ fuel)
    (hcur : ∀ k, k < cur.length → ¬ old <+: (cur ++ s).drop k) :
    ∀ p ∈ splitLoop old fuel s cur, ¬ old <:+: p := by
  induction fuel generalizing s cur with
  | zero =>
    have hs : s = [] := List.length_eq_zero.1 (Nat.le_zero.1 hfuel)
    subst hs
    intro p hp
    simp only [splitLoop, List.append_nil, List.mem_singleton] at hp
    subst hp
    exact not_infix_of_no_prefix old hold p [] hcur
  | succ n ih =>
    cases s with
    | nil =>
      intro p hp
      simp only [splitLoop, List.mem_singleton] at hp
      subst hp
      exact not_infix_of_no_prefix old hold p [] hcur
    | cons c cs =>
      have hlen : 0 < old.length := List.length_pos.2 hold
      intro p hp
      rw [splitLoop] at hp
      by_cases hpre : hasPrefixChars (c :: cs) old = true
      · rw [if_pos hpre] at hp
        rcases List.mem_cons.1 hp with rfl | hp
        · exact not_infix_of_no_prefix old hold p (c :: cs) hcur
        · refine ih _ [] ?_ ?_ p hp
          · simp only [List.length_drop, List.length_cons] at hfuel ⊢
            omega
          · intro k hk
            simp at hk
      · rw [if_neg hpre] at hp
        refine ih cs (cur ++ [c]) ?_ ?_ p hp
        · simp only [List.length_cons] at hfuel
          omega
        · intro k hk
          have e : cur ++ [c] ++ cs = cur ++ c :: cs := by simp
          rw [e]
          rcases Nat.lt_or_ge k cur.length with h | h
          · exact hcur k h
          · have hk' : k = cur.length := by
              simp only [List.length_append, List.length_singleton] at hk
              omega
            subst hk'
            rw [List.drop_left]
            exact fun h => hpre ((hasPrefixChars_iff _ _).2 h)

/-- C17. For a non-empty `old`, the table's `replace` returns the pieces of
`s` between the non-overlapping occurrences of `old`, taken from the left,
joined with `new`. Joined with `old` the same pieces give back `s`, and no
piece contains `old`. So `replace(s, old, old)` is `s`, and when `old` does
not occur in `s` the result is `s`. -/
theorem replace_is_split_then_join (env : Env Re Ex) (s old new : String) (hold : old ≠ "") :
    callHelper env "replace" [.str s, .str old, .str new] =
      some (.ok (.str (String.mk (joinChars new.toList (splitChars s.toList old.toList))))) ∧
    joinChars old.toList (splitChars s.toList old.toList) = s.toList ∧
    (∀ p ∈ splitChars s.toList old.toList, containsChars p old.toList = false) ∧
    (stringsContains s old = false →
      callHelper env "replace" [.str s, .str old, .str new] = some (.ok (.str s))) ∧
    callHelper env "replace" [.str s, .str old, .str old] = some (.ok (.str s)) := by
  have hne := toList_ne_nil_of_ne_empty old hold
  have hcall : ∀ n : String, callHelper env "replace" [.str s, .str old, .str n] =
      some (.ok (.str (String.mk (replaceChars s.toList old.toList n.toList)))) := fun _ => rfl
  have hsame : replaceChars s.toList old.toList old.toList = s.toList := by
    simp [replaceChars]
  refine ⟨?_, ?_, ?_, ?_, ?_⟩
  · rw [hcall, replaceChars_eq_join _ _ _ hne]
  · rw [← replaceChars_eq_join _ _ _ hne, hsame]
  · intro p hp
    have h := splitLoop_pieces_free old.toList hne s.toList.length s.toList [] le_rfl
      (fun k hk => by simp at hk) p hp
    rw [← containsChars_iff] at h
    simpa using h
  · intro h
    rw [hcall]
    have h2 : replaceChars s.toList old.toList new.toList = s.toList := by
      rw [replaceChars]
      by_cases h' : old.toList = new.toList
      · rw [if_pos h']
      · rw [if_neg h', if_neg hne, replaceLoop_of_not_contains _ _ _ _ h]
    rw [h2]
    rfl
  · rw [hcall, hsame]
    rfl

theorem replace_is_split_then_join_witness :
    callHelper sampleEnv "replace" [.str "banana", .str "an", .str "AN"] =
      some (.ok (.str "bANANa")) :=
  (replace_is_split_then_join sampleEnv "banana" "an" "AN" (by decide)).1

end Replace

/-! ## Determinism and repeated compilation -/

section Repeat
variable {Re Ex : Type}

/-- The returned error depends only on the authored fields and on the
compiled collections before the call. -/
theorem CompileMatchers_error_congr (env : Env Re Ex) (m1 m2 : Matcher Re Ex)
    (hT : m1.Type_ = m2.Type_) (hR : m1.Regex = m2.Regex) (hD : m1.DSL = m2.DSL)
    (hC : m1.Condition = m2.Condition) (hP : m1.Part = m2.Part)
    (hr : m1.regexCompiled = m2.regexCompiled) (hd : m1.dslCompiled = m2.dslCompiled) :
    (CompileMatchers env m1).2 = (CompileMatchers env m2).2 := by
  unfold CompileMatchers
  simp only [← hT, ← hR, ← hD, ← hC, ← hP, ← hr, ← hd]
  cases ht : env.MatcherTypes m1.Type_ with
  | none => rfl
  | some t =>
    rcases hr' : compileRegexes env m1.Regex m1.regexCompiled with ⟨rc, _ | e⟩
    · rcases hd' : compileDSLs env m1.DSL m1.dslCompiled with ⟨dc, _ | e⟩
      · simp only [hr', hd']
        by_cases hc : m1.Condition = "" <;> by_cases hp : m1.Part = "" <;>
          cases hct : env.ConditionTypes m1.Condition <;>
          cases hpt : env.PartTypes m1.Part <;>
          simp only [ne_eq, hct, hpt, if_neg (not_not.2 hc), if_neg (not_not.2 hp), if_pos hc,
            if_pos hp]
      · simp only [hr', hd']
    · simp only [hr']

/-- C18. Two matchers with the same `Type`, patterns, expressions,
`Condition` and `Part`, and empty compiled collections, compile alike: the
same error on both, or success on both with the same resolved matcher type,
condition and part and the same compiled collections, whose entries are the
compilations, in order, of the common sources. -/
theorem compile_deterministic (env : Env Re Ex) (m1 m2 : Matcher Re Ex)
    (hT : m1.Type_ = m2.Type_) (hR : m1.Regex = m2.Regex) (hD : m1.DSL = m2.DSL)
    (hC : m1.Condition = m2.Condition) (hP : m1.Part = m2.Part)
    (h1r : m1.regexCompiled = []) (h1d : m1.dslCompiled = [])
    (h2r : m2.regexCompiled = []) (h2d : m2.dslCompiled = []) :
    (CompileMatchers env m1).2 = (CompileMatchers env m2).2 ∧
    ((CompileMatchers env m1).2 = none →
      (CompileMatchers env m1).1.matcherType = (CompileMatchers env m2).1.matcherType ∧
      (CompileMatchers env m1).1.condition = (CompileMatchers env m2).1.condition ∧
      (CompileMatchers env m1).1.part = (CompileMatchers env m2).1.part ∧
      (CompileMatchers env m1).1.regexCompiled = (CompileMatchers env m2).1.regexCompiled ∧
      (CompileMatchers env m1).1.dslCompiled = (CompileMatchers env m2).1.dslCompiled ∧
      (CompileMatchers env m1).1.regexCompiled.map Except.ok =
        m1.Regex.map env.regexpCompile ∧
      (CompileMatchers env m1).1.dslCompiled.map Except.ok =
        m1.DSL.map fun dsl =>
          env.NewEvaluableExpressionWithFunctions dsl (helperFunctions env)) := by
  have herr := CompileMatchers_error_congr env m1 m2 hT hR hD hC hP (h1r.trans h2r.symm)
    (h1d.trans h2d.symm)
  refine ⟨herr, fun h1 => ?_⟩
  have h2 : (CompileMatchers env m2).2 = none := herr ▸ h1
  obtain ⟨t, rc, dc, c, p, ht, hr, hd, hc, hc0, hp, hp0, hm⟩ := CompileMatchers_success env m1 h1
  obtain ⟨t', rc', dc', c', p', ht', hr', hd', hc', hc0', hp', hp0', hm'⟩ :=
    CompileMatchers_success env m2 h2
  rw [← hT] at ht'
  rw [← hR, ← h1r.trans h2r.symm] at hr'
  rw [← hD, ← h1d.trans h2d.symm] at hd'
  rw [← hC] at hc' hc0'
  rw [← hP] at hp' hp0'
  have et : t = t' := Option.some.inj (ht.symm.trans ht')
  have er : rc = rc' := congrArg Prod.fst (hr.symm.trans hr')
  have ed : dc = dc' := congrArg Prod.fst (hd.symm.trans hd')
  have ec : c = c' := by
    by_cases h : m1.Condition = ""
    · rw [hc0 h, hc0' h]
    · exact Option.some.inj ((hc h).symm.trans (hc' h))
  have ep : p = p' := by
    by_cases h : m1.Part = ""
    · rw [hp0 h, hp0' h]
    · exact Option.some.inj ((hp h).symm.trans (hp' h))
  rw [compileRegexes_eq] at hr
  rw [compileDSLs_eq] at hd
  obtain ⟨cs, hcs1, hcs2⟩ := appendCompiled_success _ _ _ _ (congrArg Prod.snd hr)
  obtain ⟨ds, hds1, hds2⟩ := appendCompiled_success _ _ _ _ (congrArg Prod.snd hd)
  rw [hr, h1r] at hcs1
  rw [hd, h1d] at hds1
  simp only [List.nil_append] at hcs1 hds1
  subst hcs1 hds1
  rw [hm, hm']
  exact ⟨et, ec, ep, er, ed, hcs2, hds2⟩

theorem compile_deterministic_witness :
    (CompileMatchers sampleEnv (newMatcher "regex" ["a.*", "("] ["x"] "and" "")).2 =
      (CompileMatchers sampleEnv
        { newMatcher "regex" ["a.*", "("] ["x"] "and" "" with
          matcherType := 5, condition := 1, part := 3 }).2 :=
  (compile_deterministic sampleEnv (newMatcher "regex" ["a.*", "("] ["x"] "and" "")
    { newMatcher "regex" ["a.*", "("] ["x"] "and" "" with
      matcherType := 5, condition := 1, part := 3 } rfl rfl rfl rfl rfl rfl rfl rfl rfl).1

/-- C20. A second call appends. When a first call succeeds on a matcher with
empty compiled collections, a call on the resulting matcher succeeds too,
keeps the resolved matcher type, condition and part, and leaves in each
compiled collection the first call's entries followed by the same entries
again (a compilation of the same sources in the same order), so twice as many
as there are sources. -/
theorem second_call_appends (env : Env Re Ex) (m : Matcher Re Ex)
    (hr0 : m.regexCompiled = []) (hd0 : m.dslCompiled = [])
    (h : (CompileMatchers env m).2 = none) :
    (CompileMatchers env (CompileMatchers env m).1).2 = none ∧
    (CompileMatchers env (CompileMatchers env m).1).1.matcherType =
      (CompileMatchers env m).1.matcherType ∧
    (CompileMatchers env (CompileMatchers env m).1).1.condition =
      (CompileMatchers env m).1.condition ∧
    (CompileMatchers env (CompileMatchers env m).1).1.part = (CompileMatchers env m).1.part ∧
    (CompileMatchers env (CompileMatchers env m).1).1.regexCompiled =
      (CompileMatchers env m).1.regexCompiled ++ (CompileMatchers env m).1.regexCompiled ∧
    (CompileMatchers env (CompileMatchers env m).1).1.dslCompiled =
      (CompileMatchers env m).1.dslCompiled ++ (CompileMatchers env m).1.dslCompiled ∧
    (CompileMatchers env (CompileMatchers env m).1).1.regexCompiled.length
      = 2 * m.Regex.length ∧
    (CompileMatchers env (CompileMatchers env m).1).1.dslCompiled.length
      = 2 * m.DSL.length ∧
    (CompileMatchers env m).1.regexCompiled.map Except.ok = m.Regex.map env.regexpCompile ∧
    (CompileMatchers env m).1.dslCompiled.map Except.ok =
      m.DSL.map fun dsl =>
        env.NewEvaluableExpressionWithFunctions dsl (helperFunctions env) := by
  obtain ⟨t, rc, dc, c, p, ht, hr, hd, hc, hc0, hp, hp0, hm⟩ := CompileMatchers_success env m h
  rw [compileRegexes_eq, hr0] at hr
  rw [compileDSLs_eq, hd0] at hd
  obtain ⟨cs, hcs1, hcs2⟩ := appendCompiled_success _ _ _ _ (congrArg Prod.snd hr)
  obtain ⟨ds, hds1, hds2⟩ := appendCompiled_success _ _ _ _ (congrArg Prod.snd hd)
  have hallr := (appendCompiled_ok_iff _ _ _ _).1 (congrArg Prod.snd hr)
  have halld := (appendCompiled_ok_iff _ _ _ _).1 (congrArg Prod.snd hd)
  rw [hr] at hcs1
  rw [hd] at hds1
  simp only [List.nil_append] at hcs1 hds1
  subst hcs1 hds1
  rw [hm]
  have hok_r : (compileRegexes env m.Regex rc).2 = none := by
    rw [compileRegexes_eq]
    exact (appendCompiled_ok_iff _ _ _ _).2 hallr
  have hok_d : (compileDSLs env m.DSL dc).2 = none := by
    rw [compileDSLs_eq]
    exact (appendCompiled_ok_iff _ _ _ _).2 halld
  have hcond : m.Condition = "" ∨ (env.ConditionTypes m.Condition).isSome = true := by
    by_cases h' : m.Condition = ""
    · exact Or.inl h'
    · exact Or.inr (by simp [hc h'])
  have hpart : m.Part = "" ∨ (env.PartTypes m.Part).isSome = true := by
    by_cases h' : m.Part = ""
    · exact Or.inl h'
    · exact Or.inr (by simp [hp h'])
  have h2 := (CompileMatchers_of_stages env
    { m with matcherType := t, regexCompiled := rc, dslCompiled := dc, condition := c,
             part := p } t ht hok_r hok_d hcond hpart).1
  obtain ⟨t', rc', dc', c', p', ht', hr', hd', hc', hc0', hp', hp0', hm'⟩ :=
    CompileMatchers_success env _ h2
  have et : t' = t := Option.some.inj (ht'.symm.trans ht)
  have ec : c' = c := by
    by_cases h' : m.Condition = ""
    · rw [hc0 h', hc0' h']
    · exact Option.some.inj ((hc' h').symm.trans (hc h'))
  have ep : p' = p := by
    by_cases h' : m.Part = ""
    · rw [hp0 h', hp0' h']
    · exact Option.some.inj ((hp' h').symm.trans (hp h'))
  rw [compileRegexes_eq] at hr'
  rw [compileDSLs_eq] at hd'
  obtain ⟨cs', hcs1', hcs2'⟩ := appendCompiled_success _ _ _ _ (congrArg Prod.snd hr')
  obtain ⟨ds', hds1', hds2'⟩ := appendCompiled_success _ _ _ _ (congrArg Prod.snd hd')
  rw [hr'] at hcs1'
  rw [hd'] at hds1'
  have inj_r : cs' = rc :=
    List.map_injective_iff.2 (fun a b hab => Except.ok.inj hab) (hcs2'.trans hcs2.symm)
  have inj_d : ds' = dc :=
    List.map_injective_iff.2 (fun a b hab => Except.ok.inj hab) (hds2'.trans hds2.symm)
  have lr : rc.length = m.Regex.length := by simpa using congrArg List.length hcs2
  have ld : dc.length = m.DSL.length := by simpa using congrArg List.length hds2
  subst inj_r inj_d
  simp only at hcs1' hds1'
  rw [hm']
  refine ⟨h2, et, ec, ep, hcs1', hds1', ?_, ?_, hcs2, hds2⟩
  · show rc'.length = _
    rw [hcs1', List.length_append, lr]
    omega
  · show dc'.length = _
    rw [hds1', List.length_append, ld]
    omega

theorem second_call_appends_witness :
    (CompileMatchers sampleEnv
      (CompileMatchers sampleEnv (newMatcher "regex" ["a.*", "(b)"] ["x"] "" "")).1).1.regexCompiled
      = ["a.*", "(b)", "a.*", "(b)"] := by
  have h := (second_call_appends sampleEnv (newMatcher "regex" ["a.*", "(b)"] ["x"] "" "")
    rfl rfl (by decide)).2.2.2.2.1
  rw [h]
  decide

end Repeat

/-! ## Base64 -/

section Base64
variable {Re Ex : Type}

theorem encodeChar_spec :
    ∀ n, n < 64 → decodeChar (encodeChar n) = some n ∧ encodeChar n ≠ '=' ∧
      isBase64Char (encodeChar n) = true := by
  decide

theorem by_threes {P : List Nat → Prop} (h0 : P []) (h1 : ∀ a, P [a]) (h2 : ∀ a b, P [a, b])
    (h3 : ∀ a b c rest, P rest → P (a :: b :: c :: rest)) : ∀ l, P l
  | [] => h0
  | [a] => h1 a
  | [a, b] => h2 a b
  | a :: b :: c :: rest => h3 a b c rest (by_threes h0 h1 h2 h3 rest)

theorem decodeQuad_encode (a b c : Nat) (ha : a < 256) (hb : b < 256) (hc : c < 256) :
    decodeQuad (encodeChar ((a * 65536 + b * 256 + c) / 262144 % 64))
      (encodeChar ((a * 65536 + b * 256 + c) / 4096 % 64))
      (encodeChar ((a * 65536 + b * 256 + c) / 64 % 64))
      (encodeChar ((a * 65536 + b * 256 + c) % 64)) = some [a, b, c] := by
  have e1 := (encodeChar_spec ((a * 65536 + b * 256 + c) / 262144 % 64) (by omega)).1
  have e2 := (encodeChar_spec ((a * 65536 + b * 256 + c) / 4096 % 64) (by omega)).1
  have e3 := (encodeChar_spec ((a * 65536 + b * 256 + c) / 64 % 64) (by omega)).1
  have e4 := (encodeChar_spec ((a * 65536 + b * 256 + c) % 64) (by omega)).1
  simp only [decodeQuad, e1, e2, e3, e4, Option.bind_eq_bind, Option.some_bind, Option.pure_def,
    Option.some.injEq, List.cons.injEq, and_true]
  omega

theorem encodeBytes_cons (x : Nat) (xs : List Nat) :
    ∃ y ys, encodeBytes (x :: xs) = y :: ys := by
  rcases xs with _ | ⟨b, _ | ⟨c, rest⟩⟩ <;> exact ⟨_, _, rfl⟩

theorem decodeStd_five (c1 c2 c3 c4 y : Char) (ys : List Char) :
    decodeStd (c1 :: c2 :: c3 :: c4 :: y :: ys) =
      (decodeQuad c1 c2 c3 c4).bind fun bs =>
        (decodeStd (y :: ys)).bind fun tail => some (bs ++ tail) := by
  rw [decodeStd]
  · rfl
  · intro h
    cases h

theorem decodeStd_encodeBytes (l : List Nat) (h : ∀ b ∈ l, b < 256) :
    decodeStd (encodeBytes l) = some l := by
  induction l using by_threes with
  | h0 => rfl
  | h1 a =>
    have ha : a < 256 := h a (by simp)
    have e1 := (encodeChar_spec (a * 65536 / 262144 % 64) (by omega)).1
    have e2 := (encodeChar_spec (a * 65536 / 4096 % 64) (by omega)).1
    simp only [encodeBytes, decodeStd, e1, e2, if_true, Option.bind_eq_bind, Option.some_bind,
      Option.pure_def, Option.some.injEq, List.cons.injEq, and_true]
    omega
  | h2 a b =>
    have ha : a < 256 := h a (by simp)
    have hb : b < 256 := h b (by simp)
    have e1 := (encodeChar_spec ((a * 65536 + b * 256) / 262144 % 64) (by omega)).1
    have e2 := (encodeChar_spec ((a * 65536 + b * 256) / 4096 % 64) (by omega)).1
    have e3 := (encodeChar_spec ((a * 65536 + b * 256) / 64 % 64) (by omega))
    simp only [encodeBytes, decodeStd, e1, e2, e3.1, if_true, if_neg e3.2.1,
      Option.bind_eq_bind, Option.some_bind, Option.pure_def, Option.some.injEq,
      List.cons.injEq, and_true]
    omega
  | h3 a b c rest ih =>
    have ha : a < 256 := h a (by simp)
    have hb : b < 256 := h b (by simp)
    have hc : c < 256 := h c (by simp)
    have hq := decodeQuad_encode a b c ha hb hc
    have ih' := ih fun x hx => h x (by simp [hx])
    have e4 := (encodeChar_spec ((a * 65536 + b * 256 + c) % 64) (by omega)).2.1
    cases rest with
    | nil =>
      simp only [encodeBytes, decodeStd, if_neg e4]
      exact hq
    | cons x xs =>
      obtain ⟨y, ys, hy⟩ := encodeBytes_cons x xs
      rw [encodeBytes, hy, decodeStd_five, hq, ← hy, ih']
      rfl

theorem encodeBytes_length (l : List Nat) :
    (encodeBytes l).length = 4 * ((l.length + 2) / 3) := by
  induction l using by_threes with
  | h0 => rfl
  | h1 a => simp [encodeBytes]
  | h2 a b => simp [encodeBytes]
  | h3 a b c rest ih =>
    simp only [encodeBytes, List.length_cons, ih]
    omega

theorem encodeBytes_shape (l : List Nat) :
    ∃ body pad, encodeBytes l = body ++ pad ∧ (∀ c ∈ body, isBase64Char c = true) ∧
      (pad = [] ∨ pad = ['='] ∨ pad = ['=', '=']) := by
  induction l using by_threes with
  | h0 => exact ⟨[], [], rfl, by simp, Or.inl rfl⟩
  | h1 a =>
    refine ⟨[encodeChar (a * 65536 / 262144 % 64), encodeChar (a * 65536 / 4096 % 64)],
      ['=', '='], rfl, ?_, Or.inr (Or.inr rfl)⟩
    intro c hc
    simp only [List.mem_cons, List.mem_singleton, List.not_mem_nil, or_false] at hc
    rcases hc with rfl | rfl <;> exact (encodeChar_spec _ (by omega)).2.2
  | h2 a b =>
    refine ⟨[encodeChar ((a * 65536 + b * 256) / 262144 % 64),
      encodeChar ((a * 65536 + b * 256) / 4096 % 64),
      encodeChar ((a * 65536 + b * 256) / 64 % 64)], ['='], rfl, ?_, Or.inr (Or.inl rfl)⟩
    intro c hc
    simp only [List.mem_cons, List.mem_singleton, List.not_mem_nil, or_false] at hc
    rcases hc with rfl | rfl | rfl <;> exact (encodeChar_spec _ (by omega)).2.2
  | h3 a b c rest ih =>
    obtain ⟨body, pad, h1, h2, h3⟩ := ih
    refine ⟨encodeChar ((a * 65536 + b * 256 + c) / 262144 % 64) ::
      encodeChar ((a * 65536 + b * 256 + c) / 4096 % 64) ::
      encodeChar ((a * 65536 + b * 256 + c) / 64 % 64) ::
      encodeChar ((a * 65536 + b * 256 + c) % 64) :: body, pad, ?_, ?_, h3⟩
    · simp only [encodeBytes, h1, List.cons_append]
    · intro x hx
      simp only [List.mem_cons] at hx
      rcases hx with rfl | rfl | rfl | rfl | hx
      · exact (encodeChar_spec _ (by omega)).2.2
      · exact (encodeChar_spec _ (by omega)).2.2
      · exact (encodeChar_spec _ (by omega)).2.2
      · exact (encodeChar_spec _ (by omega)).2.2
      · exact h2 x hx

theorem stringBytes_lt (s : String) : ∀ b ∈ stringBytes s, b < 256 := by
  intro b hb
  simp only [stringBytes, List.mem_flatMap, List.mem_map] at hb
  obtain ⟨_, _, u, _, rfl⟩ := hb
  exact UInt8.toNat_lt u

/-- C19. The table's `base64` returns a string of `4 * ceil(n / 3)`
characters, `n` being the number of bytes of `s`: characters among `A-Z`,
`a-z`, `0-9`, `+`, `/`, followed by at most two `=`. Standard base64 decoding
of that string gives the bytes of `s`; hence two strings with the same output
have the same bytes. -/
theorem base64_output_shape (env : Env Re Ex) (s : String) :
    ∃ out : String, callHelper env "base64" [.str s] = some (.ok (.str out)) ∧
      out.length = 4 * ((goLen s + 2) / 3) ∧
      (∃ body pad, out.toList = body ++ pad ∧ (∀ c ∈ body, isBase64Char c = true) ∧
        (pad = [] ∨ pad = ['='] ∨ pad = ['=', '='])) ∧
      decodeStd out.toList = some (stringBytes s) ∧
      ∀ s' : String, callHelper env "base64" [.str s'] = callHelper env "base64" [.str s] →
        stringBytes s' = stringBytes s := by
  have hcall : ∀ t : String, callHelper env "base64" [.str t] =
      some (.ok (.str (EncodeToString (stringBytes t)))) := fun _ => rfl
  refine ⟨EncodeToString (stringBytes s), rfl, encodeBytes_length _, encodeBytes_shape _,
    decodeStd_encodeBytes _ (stringBytes_lt s), fun s' h => ?_⟩
  rw [hcall, hcall] at h
  simp only [Option.some.injEq, Except.ok.injEq, Value.str.injEq, EncodeToString] at h
  have h' : encodeBytes (stringBytes s') = encodeBytes (stringBytes s) :=
    congrArg String.data h
  have h1 := decodeStd_encodeBytes _ (stringBytes_lt s')
  rw [h', decodeStd_encodeBytes _ (stringBytes_lt s)] at h1
  exact (Option.some.inj h1).symm

end Base64

end Matchers
